import Mathlib

/-!
Verification of the mofa-studio embedded-webview / plugin-supervisor core.

This file shallowly embeds the relevant Rust sources:

* `mofa-widgets/src/webview/ipc.rs` — the minimal JSON value type, its
  `Display` serializer, the recursive-descent parser, and
  `IpcMessage::from_js`;
* `mofa-widgets/src/webview/wry_wrapper.rs` — `ManagedWebView` with its
  fallible native operations, modelled with an explicit trace of native
  calls and a boolean oracle for the outcome of each native call;
* `mofa-widgets/src/webview/mod.rs` — the `WebViewContainer` lifecycle
  state machine (frame-driven retried initialization, bounds syncing);
* `mofa-widgets/src/plugins/loader.rs` and `manifest.rs` — the plugin
  loader, with filesystem / port / process effects supplied by an
  explicit environment record.

Rust `f64` numbers inside JSON values are modelled abstractly through the
`NumRepr` class: the source formats numbers with `Display` and re-reads
them with `string::parse::<f64>`, and Rust's standard library guarantees
that this round-trips for every finite double, which is exactly what the
`NumRepr` laws state.  A small concrete instance (`Fin 10`, one digit
characters) is provided for evaluating the parser on concrete inputs.
-/

namespace MofaStudio

/-- The left brace character, written by codepoint. -/
def lbrace : Char := Char.ofNat 123

/-- The right brace character, written by codepoint. -/
def rbrace : Char := Char.ofNat 125

/-- The character class accepted by `parse_number` in `ipc.rs`:
`c.is_ascii_digit() || c == '.' || c == '-' || c == 'e' || c == 'E' || c == '+'`. -/
def isNumChar (c : Char) : Bool :=
  c.isDigit || c = '.' || c = '-' || c = 'e' || c = 'E' || c = '+'

/-- Rust's `char::is_whitespace` (the Unicode `White_Space` property),
used by `skip_whitespace` and `string::trim`. -/
def isRustWhitespace (c : Char) : Bool :=
  let n := c.toNat
  (decide (9 ≤ n) && decide (n ≤ 13)) || decide (n = 32) || decide (n = 133) ||
  decide (n = 160) || decide (n = 5760) ||
  (decide (8192 ≤ n) && decide (n ≤ 8202)) || decide (n = 8232) ||
  decide (n = 8233) || decide (n = 8239) || decide (n = 8287) ||
  decide (n = 12288)

/-- Is the first character of a printed number a digit or a minus sign
(the two characters on which `parse_value` dispatches to `parse_number`)? -/
def goodNumHead : List Char → Bool
  | c :: _ => c.isDigit || c = '-'
  | [] => false

/-- Abstract model of the `f64` payload of `JsonValue::Number`.
`toStr` is Rust's `Display` for `f64`, `ofStr` is `string::parse::<f64>`.
The laws record what Rust guarantees for every finite double (the only
numbers the round-trip claim quantifies over): the printed form is a
nonempty string of number-class characters starting with a digit or a
minus sign, and parsing it back yields the same value. -/
class NumRepr (N : Type) where
  toStr : N → String
  ofStr : String → Option N
  toStr_ne_nil : ∀ n : N, (toStr n).data ≠ []
  toStr_head : ∀ n : N, goodNumHead (toStr n).data = true
  toStr_chars : ∀ (n : N) (c : Char), c ∈ (toStr n).data → isNumChar c = true
  ofStr_toStr : ∀ n : N, ofStr (toStr n) = some n

/-- `JsonValue` from `ipc.rs`.  `Object` is a `HashMap<String, JsonValue>`
in the source; it is modelled as an association list with unique keys
(the `HashMap` invariant), inserted into with `insertAssoc` below. -/
inductive JsonValue (N : Type) where
  | null : JsonValue N
  | bool (b : Bool) : JsonValue N
  | number (n : N) : JsonValue N
  | string (s : String) : JsonValue N
  | array (items : List (JsonValue N)) : JsonValue N
  | object (entries : List (String × JsonValue N)) : JsonValue N

/-- Association-list lookup, modelling `HashMap::get`. -/
def lookupAssoc {α : Type} : List (String × α) → String → Option α
  | [], _ => none
  | (k', v) :: rest, k => if k' = k then some v else lookupAssoc rest k

/-- Association-list insert, modelling `HashMap::insert`: replaces the
value if the key is present, otherwise adds the entry. -/
def insertAssoc {α : Type} : List (String × α) → String → α → List (String × α)
  | [], k, v => [(k, v)]
  | (k', v') :: rest, k, v =>
    if k' = k then (k', v) :: rest else (k', v') :: insertAssoc rest k v

/-- `JsonValue::as_str`. -/
def JsonValue.asStr {N : Type} : JsonValue N → Option String
  | .string s => some s
  | _ => none

/-- `JsonValue::get`. -/
def JsonValue.get {N : Type} : JsonValue N → String → Option (JsonValue N)
  | .object m, k => lookupAssoc m k
  | _, _ => none

/-- Escaping of one string character in the `Display` impl:
`s.replace(backslash, double-backslash).replace(quote, backslash-quote)`
acts on each character independently. -/
def escChar (c : Char) : List Char :=
  if c = '\\' then ['\\', '\\']
  else if c = '"' then ['\\', '"']
  else [c]

/-- Escape a whole string (value position only — keys are NOT escaped by
the source's `Display` impl). -/
def escList (cs : List Char) : List Char := cs.flatMap escChar

mutual
/-- The `Display` implementation for `JsonValue`, producing the character
sequence written by `write!`. -/
def serialize {N : Type} [NumRepr N] : JsonValue N → List Char
  | .null => "null".data
  | .bool true => "true".data
  | .bool false => "false".data
  | .number n => (NumRepr.toStr n).data
  | .string s => '"' :: (escList s.data ++ ['"'])
  | .array l => '[' :: (serialize_items l ++ [']'])
  | .object m => lbrace :: (serialize_entries m ++ [rbrace])

/-- Array elements joined by commas (the `enumerate` loop of `Display`). -/
def serialize_items {N : Type} [NumRepr N] : List (JsonValue N) → List Char
  | [] => []
  | [v] => serialize v
  | v :: rest => serialize v ++ ',' :: serialize_items rest

/-- Object members joined by commas; keys are written raw, unescaped
(`write!(f, "\x7b:\x7d", k, v)`-style), exactly as in the source. -/
def serialize_entries {N : Type} [NumRepr N] : List (String × JsonValue N) → List Char
  | [] => []
  | [(k, v)] => '"' :: (k.data ++ '"' :: ':' :: serialize v)
  | (k, v) :: rest =>
    ('"' :: (k.data ++ '"' :: ':' :: serialize v)) ++ ',' :: serialize_entries rest
end

/-- `Display` output as a `String` (`data.to_string()` in the source). -/
def serializeStr {N : Type} [NumRepr N] (v : JsonValue N) : String :=
  String.mk (serialize v)

/-- `skip_whitespace`. -/
def skip_whitespace : List Char → List Char
  | [] => []
  | c :: cs => if isRustWhitespace c then skip_whitespace cs else c :: cs

/-- The decoding of one escaped character in `parse_string`: `n`, `r`,
`t` map to their control characters, anything else (including `\\` and
`"`) maps to itself. -/
def escDecode (e : Char) : Char :=
  if e = 'n' then '\n' else if e = 'r' then '\r'
  else if e = 't' then '\t' else e

/-- The accumulator loop of `parse_string`, entered after the opening
quote has been consumed. -/
def parse_string_loop (acc : List Char) : List Char → Except Unit (String × List Char)
  | [] => .error ()
  | c :: rest =>
    if c = '"' then .ok (String.mk acc, rest)
    else if c = '\\' then
      match rest with
      | [] => .error ()
      | e :: rest2 => parse_string_loop (acc ++ [escDecode e]) rest2
    else parse_string_loop (acc ++ [c]) rest

/-- `parse_string`: unconditionally consumes the first character (the
source does `chars.next()` ignoring its value), then loops. -/
def parse_string (cs : List Char) : Except Unit (String × List Char) :=
  parse_string_loop [] cs.tail

/-- `parse_bool`: takes four characters; `"true"` succeeds, a `"fals"`
prefix consumes one further character (whatever it is) and succeeds. -/
def parse_bool {N : Type} (cs : List Char) :
    Except Unit (JsonValue N × List Char) :=
  let s := cs.take 4
  if s = ['t', 'r', 'u', 'e'] then .ok (.bool true, cs.drop 4)
  else if s = ['f', 'a', 'l', 's'] then .ok (.bool false, (cs.drop 4).tail)
  else .error ()

/-- `parse_null`. -/
def parse_null {N : Type} (cs : List Char) :
    Except Unit (JsonValue N × List Char) :=
  if cs.take 4 = ['n', 'u', 'l', 'l'] then .ok (.null, cs.drop 4)
  else .error ()

/-- `parse_number`: greedily collects number-class characters and hands
them to `string::parse::<f64>` (modelled by `NumRepr.ofStr`). -/
def parse_number {N : Type} [NumRepr N] (cs : List Char) :
    Except Unit (JsonValue N × List Char) :=
  match NumRepr.ofStr (String.mk (cs.takeWhile isNumChar)) with
  | some n => .ok (.number n, cs.dropWhile isNumChar)
  | none => .error ()

mutual
/-- `parse_value`.  The source recursion is bounded by the input (every
recursive call consumes at least one character); the `fuel` argument is
a termination device only and is chosen large enough at the top level
that it never runs out. -/
def parse_value {N : Type} [NumRepr N] :
    Nat → List Char → Except Unit (JsonValue N × List Char)
  | 0, _ => .error ()
  | fuel + 1, cs =>
    match skip_whitespace cs with
    | [] => .error ()
    | c :: rest =>
      if c = '"' then
        match parse_string (c :: rest) with
        | .ok (s, r) => .ok (.string s, r)
        | .error e => .error e
      else if c = lbrace then
        -- parse_object: consume the brace, handle the empty object, loop
        match skip_whitespace rest with
        | [] => .error ()
        | c1 :: rest1 =>
          if c1 = rbrace then .ok (.object [], rest1)
          else parse_object_loop fuel [] (c1 :: rest1)
      else if c = '[' then
        -- parse_array
        match skip_whitespace rest with
        | [] => .error ()
        | c1 :: rest1 =>
          if c1 = ']' then .ok (.array [], rest1)
          else parse_array_loop fuel [] (c1 :: rest1)
      else if c = 't' ∨ c = 'f' then parse_bool (c :: rest)
      else if c = 'n' then parse_null (c :: rest)
      else if c.isDigit ∨ c = '-' then parse_number (c :: rest)
      else .error ()

/-- The member loop of `parse_object`. -/
def parse_object_loop {N : Type} [NumRepr N] :
    Nat → List (String × JsonValue N) → List Char →
    Except Unit (JsonValue N × List Char)
  | 0, _, _ => .error ()
  | fuel + 1, acc, cs =>
    match parse_string (skip_whitespace cs) with
    | .error e => .error e
    | .ok (k, cs1) =>
      match skip_whitespace cs1 with
      | ':' :: cs2 =>
        match parse_value fuel cs2 with
        | .error e => .error e
        | .ok (v, cs3) =>
          let acc2 := insertAssoc acc k v
          match skip_whitespace cs3 with
          | [] => .error ()
          | c :: cs4 =>
            if c = ',' then parse_object_loop fuel acc2 cs4
            else if c = rbrace then .ok (.object acc2, cs4)
            else .error ()
      | _ => .error ()

/-- The element loop of `parse_array`. -/
def parse_array_loop {N : Type} [NumRepr N] :
    Nat → List (JsonValue N) → List Char →
    Except Unit (JsonValue N × List Char)
  | 0, _, _ => .error ()
  | fuel + 1, acc, cs =>
    match parse_value fuel cs with
    | .error e => .error e
    | .ok (v, cs1) =>
      let acc2 := acc ++ [v]
      match skip_whitespace cs1 with
      | [] => .error ()
      | c :: cs2 =>
        if c = ',' then parse_array_loop fuel acc2 cs2
        else if c = ']' then .ok (.array acc2, cs2)
        else .error ()
end

/-- `string::trim`: drop Unicode whitespace from both ends. -/
def trimChars (cs : List Char) : List Char :=
  ((cs.dropWhile isRustWhitespace).reverse.dropWhile isRustWhitespace).reverse

/-- `serde_json_minimal_parse`: trim, then parse one value, ignoring any
trailing input.  The fuel `length + 1` never runs out, because the Rust
recursion consumes at least one character per nested call. -/
def serde_json_minimal_parse {N : Type} [NumRepr N] (json : String) :
    Except Unit (JsonValue N) :=
  let cs := trimChars json.data
  match parse_value (cs.length + 1) cs with
  | .ok (v, _) => .ok v
  | .error e => .error e

/-- Does the head of the remaining input fail the number character class?
(The serializer never places a number-class character directly after a
serialized value, so the greedy `parse_number` stops exactly at the end
of the printed number.) -/
def restOkB : List Char → Bool
  | [] => true
  | c :: _ => !isNumChar c

/-- A key the source serializes losslessly: the `Display` impl writes
object keys raw, so only keys free of quotes and backslashes survive a
round trip. -/
def goodKeyB (k : String) : Bool :=
  k.data.all (fun c => decide (c ≠ '"') && decide (c ≠ '\\'))

/-- Pairwise-distinct keys — the invariant `HashMap` enforces on the
`Object` representation. -/
def distinctKeysB {α : Type} : List (String × α) → Bool
  | [] => true
  | (k, _) :: rest => rest.all (fun kv => decide (kv.1 ≠ k)) && distinctKeysB rest

mutual
/-- Values whose `HashMap` key invariant holds and whose keys the raw
key serialization does not corrupt. -/
def wfB {N : Type} : JsonValue N → Bool
  | .null => true
  | .bool _ => true
  | .number _ => true
  | .string _ => true
  | .array l => wfBElems l
  | .object m => distinctKeysB m && wfBMembers m

/-- `wfB` on every array element. -/
def wfBElems {N : Type} : List (JsonValue N) → Bool
  | [] => true
  | v :: rest => wfB v && wfBElems rest

/-- `wfB` on every object member, plus key serializability. -/
def wfBMembers {N : Type} : List (String × JsonValue N) → Bool
  | [] => true
  | (k, v) :: rest => goodKeyB k && wfB v && wfBMembers rest
end

mutual
/-- Fuel sufficient for `parse_value` to parse the serialization of a
value: one unit per nested `parse_value` / loop-iteration call, exactly
mirroring where the parser decrements its fuel. -/
def needFuel {N : Type} : JsonValue N → Nat
  | .null => 1
  | .bool _ => 1
  | .number _ => 1
  | .string _ => 1
  | .array l => needFuelElems l + 1
  | .object m => needFuelMembers m + 1

/-- Fuel needed by `parse_array_loop` on serialized elements. -/
def needFuelElems {N : Type} : List (JsonValue N) → Nat
  | [] => 0
  | v :: rest => max (needFuel v) (needFuelElems rest) + 1

/-- Fuel needed by `parse_object_loop` on serialized members. -/
def needFuelMembers {N : Type} : List (String × JsonValue N) → Nat
  | [] => 0
  | (_, v) :: rest => max (needFuel v) (needFuelMembers rest) + 1
end

/-- First characters a serialization can start with. -/
def serHeadOk (c : Char) : Bool :=
  c = '"' || c = lbrace || c = '[' || c = 't' || c = 'f' || c = 'n' ||
  c.isDigit || c = '-'

/-- Last characters a serialization can end with. -/
def serLastOk (c : Char) : Bool :=
  c = 'l' || c = 'e' || c = '"' || c = ']' || c = rbrace || isNumChar c

/-- `IpcMessage`. -/
structure IpcMessage where
  channel : String
  data : String
deriving DecidableEq

/-- `IpcMessage::from_js`. -/
def IpcMessage.from_js (N : Type) [NumRepr N] (json : String) : IpcMessage :=
  match serde_json_minimal_parse (N := N) json with
  | .ok value =>
    match (value.get "channel").bind JsonValue.asStr, value.get "data" with
    | some channel, some data => ⟨channel, String.mk (serialize data)⟩
    | _, _ => ⟨"default", json⟩
  | .error _ => ⟨"default", json⟩

/-- Concrete `NumRepr` instance used for evaluating the parser on ground
inputs: single decimal digits. -/
instance : NumRepr (Fin 10) where
  toStr n := String.mk [Char.ofNat (48 + n.val)]
  ofStr s :=
    match s.data with
    | [c] =>
      if h : 48 ≤ c.toNat ∧ c.toNat ≤ 57 then some ⟨c.toNat - 48, by omega⟩
      else none
    | _ => none
  toStr_ne_nil := by decide
  toStr_head := by decide
  toStr_chars := by decide
  ofStr_toStr := by decide

/-! ## `wry_wrapper.rs`: `ManagedWebView`

Native (wry/platform) calls are recorded in a trace; the success of each
fallible native call is supplied by a boolean oracle argument. -/

/-- `WebViewBounds`.  `i32`/`u32` coordinates are modelled as `Int`/`Nat`;
the claims only compare bounds for equality. -/
structure WebViewBounds where
  x : Int
  y : Int
  width : Nat
  height : Nat
deriving DecidableEq

/-- `WebViewError`. -/
inductive WebViewError where
  | platformHandle
  | wryError
  | notInitialized
  | alreadyInitialized
deriving DecidableEq

/-- `WebViewConfig`. -/
structure WebViewConfig where
  url : String
  bounds : WebViewBounds
  devtools : Bool
  transparent : Bool
  user_agent : Option String
deriving DecidableEq

/-- A call that reaches the native platform view. -/
inductive NativeCall where
  | buildWebView
  | setBounds (b : WebViewBounds)
  | setVisible (v : Bool)
deriving DecidableEq

/-- `ManagedWebView`: the inner `Option<WebView>` handle is modelled as
`Option Unit` (only its presence matters); the IPC handler is owned
state with no bearing on the claims here. -/
structure ManagedWebView where
  webview : Option Unit
  config : WebViewConfig
  visible : Bool
deriving DecidableEq

/-- `ManagedWebView::new`. -/
def ManagedWebView.new (config : WebViewConfig) : ManagedWebView :=
  ⟨none, config, true⟩

/-- `ManagedWebView::is_initialized`. -/
def ManagedWebView.is_initialized (m : ManagedWebView) : Bool :=
  m.webview.isSome

/-- `ManagedWebView::initialize`; `nativeOk` is the combined outcome of
handle acquisition and `build_as_child`. -/
def ManagedWebView.initialize (m : ManagedWebView) (nativeOk : Bool) :
    Except WebViewError Unit × ManagedWebView × List NativeCall :=
  match m.webview with
  | some _ => (.error .alreadyInitialized, m, [])
  | none =>
    if nativeOk then (.ok (), { m with webview := some () }, [.buildWebView])
    else (.error .wryError, m, [.buildWebView])

/-- `ManagedWebView::set_bounds`: when no view exists this is a silent
no-op returning `Ok(())`; when a view exists the native call is made and
the stored config bounds are updated only on success. -/
def ManagedWebView.set_bounds (m : ManagedWebView) (bounds : WebViewBounds)
    (nativeOk : Bool) :
    Except WebViewError Unit × ManagedWebView × List NativeCall :=
  match m.webview with
  | some _ =>
    if nativeOk then
      (.ok (), { m with config := { m.config with bounds := bounds } },
        [.setBounds bounds])
    else (.error .wryError, m, [.setBounds bounds])
  | none => (.ok (), m, [])

/-- `ManagedWebView::set_visible` (same silent-no-op shape as
`set_bounds`). -/
def ManagedWebView.set_visible (m : ManagedWebView) (visible : Bool)
    (nativeOk : Bool) :
    Except WebViewError Unit × ManagedWebView × List NativeCall :=
  match m.webview with
  | some _ =>
    if nativeOk then
      (.ok (), { m with visible := visible }, [.setVisible visible])
    else (.error .wryError, m, [.setVisible visible])
  | none => (.ok (), m, [])

/-! ## `webview/mod.rs`: `WebViewContainer` lifecycle state machine

Rects (`makepad` `Rect`, `f64` coordinates) are modelled with integer
coordinates: the lifecycle logic only compares rects for equality and
converts them to `WebViewBounds`. -/

/-- The cached widget rect. -/
structure MRect where
  posX : Int
  posY : Int
  sizeX : Int
  sizeY : Int
deriving DecidableEq

/-- The `Rect → WebViewBounds` conversion used by `initialize_webview`
and `sync_bounds` (`as i32` casts and `max(1.0) as u32`). -/
def rectToBounds (r : MRect) : WebViewBounds :=
  ⟨r.posX, r.posY, (max r.sizeX 1).toNat, (max r.sizeY 1).toNat⟩

/-- `WebViewContainer` state (`#[rust]` fields plus the live properties
the lifecycle logic reads). -/
structure WebViewContainer where
  url : String
  devtools : Bool
  transparent : Bool
  active : Bool
  webview : Option ManagedWebView
  init_attempts : Nat
  cached_rect : Option MRect
  frame_count : Nat
  last_init_frame : Nat
deriving DecidableEq

/-- A freshly constructed container: `#[rust]` fields default to
`false` / `None` / `0`. -/
def WebViewContainer.new (url : String) (devtools transparent : Bool) :
    WebViewContainer :=
  ⟨url, devtools, transparent, false, none, 0, none, 0, 0⟩

/-- `MAX_INIT_ATTEMPTS`. -/
def MAX_INIT_ATTEMPTS : Nat := 10

/-- `RETRY_INTERVAL`. -/
def RETRY_INTERVAL : Nat := 30

/-- `INITIAL_DELAY`. -/
def INITIAL_DELAY : Nat := 10

/-- `WebViewContainer::initialize_webview`.  `initOk` is the oracle for
`ManagedWebView::initialize`; the `Initialized` / `InitFailed` actions
and the IPC-bridge injection have no effect on the state tracked here. -/
def WebViewContainer.initialize_webview (s : WebViewContainer)
    (initOk : Bool) : WebViewContainer × List NativeCall :=
  if s.webview.isSome ∨ s.init_attempts ≥ MAX_INIT_ATTEMPTS then (s, [])
  else
    let s1 := { s with init_attempts := s.init_attempts + 1,
                       last_init_frame := s.frame_count }
    let bounds := match s1.cached_rect with
      | some r => rectToBounds r
      | none => ⟨0, 0, 800, 600⟩
    let url := if s1.url = "" then "about:blank" else s1.url
    let cfg : WebViewConfig := ⟨url, bounds, s1.devtools, s1.transparent, none⟩
    let wv := ManagedWebView.new cfg
    match wv.initialize initOk with
    | (.ok _, wv1, calls) => ({ s1 with webview := some wv1 }, calls)
    | (.error _, _, calls) => (s1, calls)

/-- `WebViewContainer::sync_bounds` (failure of the native call is only
logged). -/
def WebViewContainer.sync_bounds (s : WebViewContainer) (r : MRect)
    (nativeOk : Bool) : WebViewContainer × List NativeCall :=
  match s.webview with
  | some wv =>
    let res := wv.set_bounds (rectToBounds r) nativeOk
    ({ s with webview := some res.2.1 }, res.2.2)
  | none => (s, [])

/-- `WebViewContainer::set_active` (the `cx.new_next_frame()` request has
no effect on the state tracked here). -/
def WebViewContainer.set_active (s : WebViewContainer) (active : Bool)
    (nativeOk : Bool) : WebViewContainer × List NativeCall :=
  if s.active = active then (s, [])
  else
    let s1 := { s with active := active }
    if active then (s1, [])
    else
      match s1.webview with
      | some wv =>
        let res := wv.set_visible false nativeOk
        ({ s1 with webview := some res.2.1 }, res.2.2)
      | none => (s1, [])

/-- One lifecycle stimulus: the two events `handle_event` reacts to, the
`draw_walk` pass (carrying the freshly laid-out rect), and the
`set_active` entry point.  Each stimulus carries the boolean outcomes of
the native calls it may make. -/
inductive WvEvent where
  | nextFrame (initOk visOk : Bool)
  | windowGeomChange (syncOk : Bool)
  | drawWalk (r : MRect) (syncOk : Bool)
  | setActive (active : Bool) (visOk : Bool)
deriving DecidableEq

/-- The `Event::NextFrame` arm of `handle_event`. -/
def WebViewContainer.next_frame (s : WebViewContainer)
    (initOk visOk : Bool) : WebViewContainer × List NativeCall :=
  let s1 := { s with frame_count := s.frame_count + 1 }
  if ¬s1.active then (s1, [])
  else if s1.webview.isNone ∧ s1.init_attempts < MAX_INIT_ATTEMPTS then
    let should_try :=
      if s1.init_attempts = 0 then s1.frame_count ≥ INITIAL_DELAY
      else s1.frame_count ≥ s1.last_init_frame + RETRY_INTERVAL
    if should_try then s1.initialize_webview initOk else (s1, [])
  else
    match s1.webview with
    | some wv =>
      let res := wv.set_visible true visOk
      ({ s1 with webview := some res.2.1 }, res.2.2)
    | none => (s1, [])

/-- The `Event::WindowGeomChange` arm of `handle_event`: when active and
a rect is cached, `sync_bounds` is invoked unconditionally. -/
def WebViewContainer.window_geom_change (s : WebViewContainer)
    (syncOk : Bool) : WebViewContainer × List NativeCall :=
  if s.active then
    match s.cached_rect with
    | some r => s.sync_bounds r syncOk
    | none => (s, [])
  else (s, [])

/-- `draw_walk`: caches the freshly computed rect and syncs bounds only
when the rect changed and the surface is active with a webview. -/
def WebViewContainer.draw_walk (s : WebViewContainer) (r : MRect)
    (syncOk : Bool) : WebViewContainer × List NativeCall :=
  if s.cached_rect ≠ some r then
    let s1 := { s with cached_rect := some r }
    if s1.active ∧ s1.webview.isSome then s1.sync_bounds r syncOk
    else (s1, [])
  else (s, [])

/-- One step of the lifecycle state machine. -/
def wvStep (s : WebViewContainer) : WvEvent → WebViewContainer × List NativeCall
  | .nextFrame initOk visOk => s.next_frame initOk visOk
  | .windowGeomChange syncOk => s.window_geom_change syncOk
  | .drawWalk r syncOk => s.draw_walk r syncOk
  | .setActive a visOk => s.set_active a visOk

/-- Run a sequence of lifecycle stimuli, concatenating the native-call
traces. -/
def wvRun (s : WebViewContainer) : List WvEvent → WebViewContainer × List NativeCall
  | [] => (s, [])
  | e :: evs =>
    let (s1, t1) := wvStep s e
    let (s2, t2) := wvRun s1 evs
    (s2, t1 ++ t2)

/-! ## `plugins/manifest.rs` and `plugins/loader.rs` -/

/-- `PluginType`. -/
inductive PluginType where
  | webview
  | native
deriving DecidableEq

/-- `PluginManifest` (paths as strings). -/
structure PluginManifest where
  id : String
  name : String
  version : String
  description : String
  author : String
  ptype : PluginType
  icon : Option String
  python_entry : Option String
  static_dir : Option String
  show_in_sidebar : Bool
  min_version : Option String
  homepage : Option String
  repository : Option String
deriving DecidableEq

/-- `PluginManifest::get_python_entry`. -/
def PluginManifest.get_python_entry (m : PluginManifest) : String :=
  m.python_entry.getD "python/app.py"

/-- `LoadedPlugin`; the `Child` process handle is modelled by its pid. -/
structure LoadedPlugin where
  manifest : PluginManifest
  dir : String
  server_process : Option Nat
  server_port : Option Nat
  enabled : Bool
deriving DecidableEq

/-- `LoadedPlugin::new`. -/
def LoadedPlugin.new (manifest : PluginManifest) (dir : String) : LoadedPlugin :=
  ⟨manifest, dir, none, none, true⟩

/-- `LoadedPlugin::get_url`. -/
def LoadedPlugin.get_url (p : LoadedPlugin) : Option String :=
  p.server_port.map (fun port => "http://127.0.0.1:" ++ toString port)

/-- Outcomes of the OS interactions `start_server` performs:
`find_available_port()`, `Path::exists` on the entry script, and
`Command::spawn` (yielding a pid on success). -/
structure StartEnv where
  availablePort : Option Nat
  entryExists : String → Bool
  spawnResult : Option Nat

/-- `LoadedPlugin::start_server`.  Returns the result, the new plugin
state, and the list of pids spawned by this call. -/
def LoadedPlugin.start_server (p : LoadedPlugin) (env : StartEnv) :
    Except String Nat × LoadedPlugin × List Nat :=
  if p.manifest.ptype ≠ .webview then (.error "Not a WebView plugin", p, [])
  else if p.server_process.isSome then
    match p.server_port with
    | some port => (.ok port, p, [])
    | none => (.error "Server running but no port", p, [])
  else
    match env.availablePort with
    | none => (.error "No available port", p, [])
    | some port =>
      let python_entry := p.dir ++ "/" ++ p.manifest.get_python_entry
      if ¬env.entryExists python_entry then
        (.error ("Python entry not found: " ++ python_entry), p, [])
      else
        match env.spawnResult with
        | none => (.error "Failed to start plugin server", p, [])
        | some pid =>
          (.ok port,
           { p with server_process := some pid, server_port := some port },
           [pid])

/-- `LoadedPlugin::stop_server` (kill and reap happen out of process). -/
def LoadedPlugin.stop_server (p : LoadedPlugin) : LoadedPlugin :=
  { p with server_process := none, server_port := none }

/-- `LoadedPlugin::is_server_running`. -/
def LoadedPlugin.is_server_running (p : LoadedPlugin) : Bool :=
  p.server_process.isSome

/-- `PluginLoader`: the id-keyed `HashMap` is modelled as an association
list with unique keys, written through `insertAssoc`. -/
structure PluginLoader where
  plugins_dir : String
  plugins : List (String × LoadedPlugin)
  python_cmd : String

/-- One directory entry seen by `scan_plugins`: its path, whether it is
a directory containing a `manifest.json`, and the result of
`PluginManifest::from_file` on that manifest. -/
structure DirEntry where
  path : String
  isDir : Bool
  hasManifest : Bool
  manifest : Except String PluginManifest

/-- `PluginLoader::scan_plugins` over a directory listing: loads each
valid manifest into the id-keyed map, skipping non-directories, missing
manifests, and malformed manifests. -/
def PluginLoader.scan_plugins (ldr : PluginLoader) (entries : List DirEntry) :
    PluginLoader × List String :=
  match entries with
  | [] => (ldr, [])
  | e :: rest =>
    if e.isDir ∧ e.hasManifest then
      match e.manifest with
      | .ok m =>
        let ldr1 := { ldr with
          plugins := insertAssoc ldr.plugins m.id (LoadedPlugin.new m e.path) }
        let (ldr2, ids) := ldr1.scan_plugins rest
        (ldr2, m.id :: ids)
      | .error _ => ldr.scan_plugins rest
    else ldr.scan_plugins rest

/-- The plugin id under which `scan_plugins` registers a directory
entry, if any. -/
def entryId (e : DirEntry) : Option String :=
  if e.isDir ∧ e.hasManifest then
    match e.manifest with
    | .ok m => some m.id
    | .error _ => none
  else none

/-- `PluginLoader::start_plugin`: look the plugin up by id, start it,
and store the updated plugin back (the source mutates it in place via
`get_mut`). -/
def PluginLoader.start_plugin (ldr : PluginLoader) (id : String)
    (env : StartEnv) : Except String Nat × PluginLoader × List Nat :=
  match lookupAssoc ldr.plugins id with
  | none => (.error ("Plugin not found: " ++ id), ldr, [])
  | some p =>
    let res := p.start_server env
    (res.1, { ldr with plugins := insertAssoc ldr.plugins id res.2.1 },
     res.2.2)

/-! ## Concrete example data used to instantiate the theorems -/

/-- A minimal WebView plugin manifest. -/
def demoManifest : PluginManifest :=
  ⟨"demo", "Demo", "1.0.0", "", "", .webview, none, none, none, true,
   none, none, none⟩

/-- A freshly discovered plugin. -/
def demoPlugin : LoadedPlugin := LoadedPlugin.new demoManifest "plugins/demo"

/-- An environment in which `start_server` succeeds. -/
def demoEnv : StartEnv := ⟨some 8000, fun _ => true, some 42⟩

/-- A second, different successful environment (for the second `start`). -/
def demoEnv2 : StartEnv := ⟨some 9000, fun _ => true, some 43⟩

/-- An environment in which spawning fails. -/
def spawnFailEnv : StartEnv := ⟨some 8000, fun _ => true, none⟩

/-- A manifest with a duplicated id, loaded from two directories. -/
def dupManifest : PluginManifest :=
  ⟨"dup", "Dup", "1.0.0", "", "", .webview, none, none, none, true,
   none, none, none⟩

/-- First directory entry carrying `dupManifest`. -/
def dupEntryA : DirEntry := ⟨"plugins/first", true, true, .ok dupManifest⟩

/-- Second directory entry carrying `dupManifest`. -/
def dupEntryB : DirEntry := ⟨"plugins/second", true, true, .ok dupManifest⟩

/-- A loader with no plugins yet. -/
def emptyLoader : PluginLoader := ⟨"plugins", [], "python3"⟩

/-- A concrete `WebViewConfig`. -/
def demoCfg : WebViewConfig := ⟨"about:blank", ⟨0, 0, 800, 600⟩, true, false, none⟩

/-- A `ManagedWebView` whose native view has been constructed. -/
def demoWebView : ManagedWebView := ⟨some (), demoCfg, true⟩

/-- Concrete bounds. -/
def demoBounds : WebViewBounds := ⟨5, 7, 640, 480⟩

/-- A concrete widget rect. -/
def demoRect : MRect := ⟨0, 0, 640, 480⟩

/-- An execution of the lifecycle controller: activate, tick through the
initial delay until initialization succeeds, lay out once, then receive
two window-geometry events with the cached rect unchanged. -/
def c5Events : List WvEvent :=
  WvEvent.setActive true true ::
    (List.replicate 10 (WvEvent.nextFrame true true) ++
      [WvEvent.drawWalk demoRect true,
       WvEvent.windowGeomChange true,
       WvEvent.windowGeomChange true])

/-- A surface that exhausted its initialization attempts. -/
def exhaustedContainer : WebViewContainer :=
  ⟨"http://localhost:5173", true, false, true, none, 10, none, 500, 490⟩

/-- The C3 counterexample value: an object key containing a quote. -/
def keyQuoteValue : JsonValue (Fin 10) :=
  .object [("a\"b", .null)]

/-- A nested well-formed value exercising every constructor. -/
def roundTripDemo : JsonValue (Fin 10) :=
  .object [("k", .array [.number 3, .string "x\\y", .bool false, .null]),
        ("m", .string ""), ("n", .number 7)]

/-! # Theorems -/

/-! ## Association-list (HashMap model) lemmas -/

/-- Looking up the key just inserted returns the inserted value. -/
theorem lookupAssoc_insertAssoc_self {α : Type} (m : List (String × α))
    (k : String) (v : α) : lookupAssoc (insertAssoc m k v) k = some v := by
  induction m with
  | nil => simp [insertAssoc, lookupAssoc]
  | cons kv rest ih =>
    obtain ⟨k1, v1⟩ := kv
    by_cases h : k1 = k
    · simp [insertAssoc, lookupAssoc, h]
    · simp [insertAssoc, lookupAssoc, h, ih]

/-- Inserting at a different key does not change a lookup. -/
theorem lookupAssoc_insertAssoc_ne {α : Type} (m : List (String × α))
    (k k1 : String) (v : α) (h : k1 ≠ k) :
    lookupAssoc (insertAssoc m k1 v) k = lookupAssoc m k := by
  induction m with
  | nil => simp [insertAssoc, lookupAssoc, h]
  | cons kv rest ih =>
    obtain ⟨k2, v2⟩ := kv
    by_cases h2 : k2 = k1
    · subst h2
      simp [insertAssoc, lookupAssoc, h]
    · by_cases h3 : k2 = k
      · subst h3
        simp only [insertAssoc, if_neg h2]
        simp [lookupAssoc]
      · simp [insertAssoc, lookupAssoc, h2, h3, ih]

/-- Inserting a fresh key appends the new entry. -/
theorem insertAssoc_eq_append {α : Type} (m : List (String × α))
    (k : String) (v : α) (h : ∀ kv ∈ m, kv.1 ≠ k) :
    insertAssoc m k v = m ++ [(k, v)] := by
  induction m with
  | nil => simp [insertAssoc]
  | cons kv rest ih =>
    obtain ⟨k1, v1⟩ := kv
    have h1 : k1 ≠ k := h (k1, v1) (List.mem_cons_self _ _)
    simp only [insertAssoc, if_neg h1, List.cons_append, List.cons.injEq,
      true_and]
    exact ih (fun kv2 hm => h kv2 (List.mem_cons_of_mem _ hm))

/-! ## Plugin supervisor -/

/-- Exhaustive case analysis of `LoadedPlugin::start_server`: either it
fails leaving the plugin untouched and spawning nothing, or it returns
the existing port of an already-running plugin, or it spawns one process
and records the freshly allocated port together with the process
handle. -/
theorem start_server_cases (p : LoadedPlugin) (env : StartEnv) :
    ((p.start_server env).2.1 = p ∧ (p.start_server env).2.2 = [] ∧
      ∃ e, (p.start_server env).1 = .error e)
  ∨ ((p.start_server env).2.1 = p ∧ (p.start_server env).2.2 = [] ∧
      p.server_process.isSome = true ∧
      ∃ port, p.server_port = some port ∧ (p.start_server env).1 = .ok port)
  ∨ (∃ port pid, env.availablePort = some port ∧
      p.manifest.ptype = .webview ∧ p.server_process = none ∧
      (p.start_server env).1 = .ok port ∧
      (p.start_server env).2.1 =
        { p with server_process := some pid, server_port := some port } ∧
      (p.start_server env).2.2 = [pid]) := by
  by_cases ht : p.manifest.ptype = .webview
  · by_cases hrun : p.server_process.isSome = true
    · match hport : p.server_port with
      | some port =>
        right; left
        simp [LoadedPlugin.start_server, ht, hrun, hport]
      | none =>
        left
        simp [LoadedPlugin.start_server, ht, hrun, hport]
    · have hnone : p.server_process = none := by
        cases h : p.server_process
        · rfl
        · rw [h] at hrun; simp at hrun
      match hport : env.availablePort with
      | none =>
        left
        simp [LoadedPlugin.start_server, ht, hrun, hport]
      | some port =>
        by_cases hentry :
            env.entryExists (p.dir ++ "/" ++ p.manifest.get_python_entry) = true
        · match hspawn : env.spawnResult with
          | none =>
            left
            simp [LoadedPlugin.start_server, ht, hrun, hport, hentry, hspawn]
          | some pid =>
            right; right
            refine ⟨port, pid, rfl, ht, hnone, ?_, ?_, ?_⟩ <;>
              simp [LoadedPlugin.start_server, ht, hrun, hport, hentry, hspawn]
        · left
          simp [LoadedPlugin.start_server, ht, hrun, hport, hentry]
  · left
    simp [LoadedPlugin.start_server, ht]

/-- C10: every `LoadedPlugin` operation preserves the invariant that
`server_process` is `Some` exactly when `server_port` is: a fresh plugin
has neither, `start_server` preserves the invariant (a successful start
sets both together, a failed start changes nothing), `stop_server`
clears both, and under the invariant `get_url` returns a URL exactly
when a process handle is held. -/
theorem loadedPlugin_process_port_invariant :
    (∀ (m : PluginManifest) (d : String),
        (LoadedPlugin.new m d).server_process = none ∧
        (LoadedPlugin.new m d).server_port = none)
  ∧ (∀ (p : LoadedPlugin) (env : StartEnv),
        p.server_process.isSome = p.server_port.isSome →
        (p.start_server env).2.1.server_process.isSome
          = (p.start_server env).2.1.server_port.isSome)
  ∧ (∀ (p : LoadedPlugin) (env : StartEnv) (port : Nat),
        p.server_process = none → (p.start_server env).1 = .ok port →
        (p.start_server env).2.1.server_process.isSome = true ∧
        (p.start_server env).2.1.server_port = some port)
  ∧ (∀ (p : LoadedPlugin) (env : StartEnv) (e : String),
        (p.start_server env).1 = .error e → (p.start_server env).2.1 = p)
  ∧ (∀ p : LoadedPlugin,
        p.stop_server.server_process = none ∧ p.stop_server.server_port = none)
  ∧ (∀ p : LoadedPlugin,
        p.server_process.isSome = p.server_port.isSome →
        p.get_url.isSome = p.server_process.isSome) := by
  refine ⟨?_, ?_, ?_, ?_, ?_, ?_⟩
  · intro m d
    exact ⟨rfl, rfl⟩
  · intro p env hinv
    rcases start_server_cases p env with ⟨hs, -, -⟩ | ⟨hs, -, -⟩ |
      ⟨port, pid, -, -, -, -, hs, -⟩ <;> rw [hs]
    · exact hinv
    · exact hinv
    · rfl
  · intro p env port hnone hok
    rcases start_server_cases p env with ⟨-, -, e, he⟩ |
      ⟨-, -, hrun, -⟩ | ⟨port2, pid, -, -, -, hok2, hs, -⟩
    · rw [hok] at he
      exact Except.noConfusion he
    · rw [hnone] at hrun
      simp at hrun
    · rw [hok] at hok2
      cases hok2
      rw [hs]
      exact ⟨rfl, rfl⟩
  · intro p env e herr
    rcases start_server_cases p env with ⟨hs, -, -⟩ |
      ⟨hs, -, -⟩ | ⟨port, pid, -, -, -, hok, -, -⟩
    · exact hs
    · exact hs
    · rw [herr] at hok
      exact Except.noConfusion hok
  · intro p
    exact ⟨rfl, rfl⟩
  · intro p hinv
    match hport : p.server_port with
    | some port => simp [LoadedPlugin.get_url, hport, hport ▸ hinv]
    | none => simp [LoadedPlugin.get_url, hport, hport ▸ hinv]

/-- C10 witness: the invariant conjuncts instantiated on the demo
plugin and a successful start environment. -/
theorem loadedPlugin_process_port_invariant_witness :
    (demoPlugin.start_server demoEnv).2.1.server_process.isSome
      = (demoPlugin.start_server demoEnv).2.1.server_port.isSome ∧
    ((demoPlugin.start_server demoEnv).2.1.server_process.isSome = true ∧
      (demoPlugin.start_server demoEnv).2.1.server_port = some 8000) :=
  ⟨loadedPlugin_process_port_invariant.2.1 demoPlugin demoEnv rfl,
   loadedPlugin_process_port_invariant.2.2.1 demoPlugin demoEnv 8000 rfl rfl⟩

/-- C6: starting a not-yet-running plugin twice without an intervening
stop returns the same port both times, spawns exactly one process (the
second call spawns none), and leaves the plugin state untouched by the
second call; the same holds through `PluginLoader::start_plugin`. -/
theorem start_twice_idempotent :
    (∀ (p : LoadedPlugin) (env1 env2 : StartEnv) (port : Nat),
      p.server_process = none →
      (p.start_server env1).1 = .ok port →
      (p.start_server env1).2.2.length = 1 ∧
      ((p.start_server env1).2.1.start_server env2).1 = .ok port ∧
      ((p.start_server env1).2.1.start_server env2).2.1
        = (p.start_server env1).2.1 ∧
      ((p.start_server env1).2.1.start_server env2).2.2 = [])
  ∧ (∀ (ldr : PluginLoader) (id : String) (env1 env2 : StartEnv)
        (port : Nat) (p : LoadedPlugin),
      lookupAssoc ldr.plugins id = some p →
      p.server_process = none →
      (ldr.start_plugin id env1).1 = .ok port →
      ((ldr.start_plugin id env1).2.1.start_plugin id env2).1 = .ok port ∧
      ((ldr.start_plugin id env1).2.1.start_plugin id env2).2.2 = []) := by
  have main : ∀ (p : LoadedPlugin) (env1 env2 : StartEnv) (port : Nat),
      p.server_process = none →
      (p.start_server env1).1 = .ok port →
      (p.start_server env1).2.2.length = 1 ∧
      ((p.start_server env1).2.1.start_server env2).1 = .ok port ∧
      ((p.start_server env1).2.1.start_server env2).2.1
        = (p.start_server env1).2.1 ∧
      ((p.start_server env1).2.1.start_server env2).2.2 = [] := by
    intro p env1 env2 port hnone hok
    rcases start_server_cases p env1 with ⟨-, -, e, he⟩ |
      ⟨-, -, hrun, -⟩ | ⟨port2, pid, -, hweb, -, hok2, hs, htr⟩
    · rw [hok] at he
      exact Except.noConfusion he
    · rw [hnone] at hrun
      simp at hrun
    · rw [hok] at hok2
      cases hok2
      rw [htr, hs]
      refine ⟨rfl, ?_, ?_, ?_⟩ <;>
        simp [LoadedPlugin.start_server, hweb]
  refine ⟨main, ?_⟩
  intro ldr id env1 env2 port p hlook hnone hok
  have hunfold : ldr.start_plugin id env1
      = ((p.start_server env1).1,
         { ldr with
           plugins := insertAssoc ldr.plugins id (p.start_server env1).2.1 },
         (p.start_server env1).2.2) := by
    simp [PluginLoader.start_plugin, hlook]
  rw [hunfold] at hok
  obtain ⟨-, h2, h3, h4⟩ := main p env1 env2 port hnone hok
  have hlook2 :
      lookupAssoc (insertAssoc ldr.plugins id (p.start_server env1).2.1) id
        = some ((p.start_server env1).2.1) :=
    lookupAssoc_insertAssoc_self _ _ _
  rw [hunfold]
  constructor
  · simp only [PluginLoader.start_plugin, hlook2]
    exact h2
  · simp only [PluginLoader.start_plugin, hlook2]
    exact h4

/-- C6 witness: the demo plugin started twice returns port 8000 both
times and the second call spawns nothing. -/
theorem start_twice_idempotent_witness :
    (demoPlugin.start_server demoEnv).2.2.length = 1 ∧
    ((demoPlugin.start_server demoEnv).2.1.start_server demoEnv2).1
      = .ok 8000 ∧
    ((demoPlugin.start_server demoEnv).2.1.start_server demoEnv2).2.1
      = (demoPlugin.start_server demoEnv).2.1 ∧
    ((demoPlugin.start_server demoEnv).2.1.start_server demoEnv2).2.2 = [] :=
  start_twice_idempotent.1 demoPlugin demoEnv demoEnv2 8000 rfl rfl

/-- C7: whenever a start fails — unknown id, wrong plugin type, port
allocation failure, missing entry script, or spawn failure — the call
returns an error, spawns nothing, and leaves the plugin state unchanged
(a not-running plugin remains not running). -/
theorem start_failure_state_unchanged :
    (∀ (p : LoadedPlugin) (env : StartEnv) (e : String),
        (p.start_server env).1 = .error e →
        (p.start_server env).2.1 = p ∧ (p.start_server env).2.2 = [])
  ∧ (∀ (p : LoadedPlugin) (env : StartEnv) (e : String),
        p.server_process = none → p.server_port = none →
        (p.start_server env).1 = .error e →
        (p.start_server env).2.1.server_process = none ∧
        (p.start_server env).2.1.server_port = none)
  ∧ (∀ (ldr : PluginLoader) (id : String) (env : StartEnv),
        lookupAssoc ldr.plugins id = none →
        (ldr.start_plugin id env).1 = .error ("Plugin not found: " ++ id) ∧
        (ldr.start_plugin id env).2.1.plugins = ldr.plugins ∧
        (ldr.start_plugin id env).2.2 = []) := by
  have unchanged : ∀ (p : LoadedPlugin) (env : StartEnv) (e : String),
      (p.start_server env).1 = .error e →
      (p.start_server env).2.1 = p ∧ (p.start_server env).2.2 = [] := by
    intro p env e herr
    rcases start_server_cases p env with ⟨hs, htr, -⟩ |
      ⟨hs, htr, -⟩ | ⟨port, pid, -, -, -, hok, -, -⟩
    · exact ⟨hs, htr⟩
    · exact ⟨hs, htr⟩
    · rw [herr] at hok
      exact Except.noConfusion hok
  refine ⟨unchanged, ?_, ?_⟩
  · intro p env e hproc hport herr
    obtain ⟨hs, -⟩ := unchanged p env e herr
    rw [hs]
    exact ⟨hproc, hport⟩
  · intro ldr id env hlook
    refine ⟨?_, ?_, ?_⟩ <;> simp [PluginLoader.start_plugin, hlook]

/-- C7 witness: a spawn failure on the demo plugin reports an error and
leaves it not running. -/
theorem start_failure_state_unchanged_witness :
    (demoPlugin.start_server spawnFailEnv).2.1.server_process = none ∧
    (demoPlugin.start_server spawnFailEnv).2.1.server_port = none :=
  start_failure_state_unchanged.2.1 demoPlugin spawnFailEnv
    "Failed to start plugin server" rfl rfl rfl

/-! ## Plugin discovery (C9) -/

/-- Scanning entries that never register a given id leaves that id's
binding untouched. -/
theorem scan_plugins_lookup_preserved (entries : List DirEntry)
    (key : String) (h : ∀ e ∈ entries, entryId e ≠ some key) :
    ∀ ldr : PluginLoader,
      lookupAssoc ((ldr.scan_plugins entries).1.plugins) key
        = lookupAssoc ldr.plugins key := by
  induction entries with
  | nil => intro ldr; rfl
  | cons e rest ih =>
    intro ldr
    have hrest : ∀ e2 ∈ rest, entryId e2 ≠ some key :=
      fun e2 hm => h e2 (List.mem_cons_of_mem _ hm)
    have he : entryId e ≠ some key := h e (List.mem_cons_self _ _)
    by_cases hd : e.isDir ∧ e.hasManifest
    · match hm : e.manifest with
      | .ok m =>
        have hid : m.id ≠ key := by
          intro hk
          apply he
          simp [entryId, hd, hm, hk]
        simp only [PluginLoader.scan_plugins, if_pos hd, hm]
        rw [ih hrest _]
        exact lookupAssoc_insertAssoc_ne _ _ _ _ hid
      | .error msg =>
        simp only [PluginLoader.scan_plugins, if_pos hd, hm]
        exact ih hrest _
    · simp only [PluginLoader.scan_plugins, if_neg hd]
      exact ih hrest _

/-- C9 counterexample: two directories both carrying a valid manifest
with id `"dup"` are scanned; the mapping retains the plugin from the
*later* directory (`plugins/second`), not the earlier one — the claim's
"earlier entry is retained" is false. -/
theorem scan_duplicate_id_counterexample :
    (lookupAssoc (emptyLoader.scan_plugins [dupEntryA, dupEntryB]).1.plugins
        "dup").map LoadedPlugin.dir = some "plugins/second" ∧
    ("plugins/second" : String) ≠ "plugins/first" ∧
    (emptyLoader.scan_plugins [dupEntryA, dupEntryB]).2 = ["dup", "dup"] := by
  refine ⟨?_, by decide, ?_⟩ <;> rfl

/-- C9 (amended): within one scan pass duplicates are last-wins — the
plugin registered for an id is the one from the *last* directory whose
valid manifest carries that id. -/
theorem scan_duplicate_id_last_wins :
    ∀ (ldr : PluginLoader) (pre : List DirEntry) (e : DirEntry)
      (post : List DirEntry) (m : PluginManifest),
      e.isDir = true → e.hasManifest = true → e.manifest = .ok m →
      (∀ e2 ∈ post, entryId e2 ≠ some m.id) →
      lookupAssoc ((ldr.scan_plugins (pre ++ e :: post)).1.plugins) m.id
        = some (LoadedPlugin.new m e.path) := by
  intro ldr pre e post m hdir hman hok hpost
  induction pre generalizing ldr with
  | nil =>
    simp only [List.nil_append, PluginLoader.scan_plugins,
      if_pos (And.intro hdir hman), hok]
    rw [scan_plugins_lookup_preserved post m.id hpost]
    exact lookupAssoc_insertAssoc_self _ _ _
  | cons e1 rest ih =>
    by_cases hd : e1.isDir ∧ e1.hasManifest
    · match hm : e1.manifest with
      | .ok m1 =>
        simp only [List.cons_append, PluginLoader.scan_plugins, if_pos hd, hm]
        exact ih _
      | .error msg =>
        simp only [List.cons_append, PluginLoader.scan_plugins, if_pos hd, hm]
        exact ih _
    · simp only [List.cons_append, PluginLoader.scan_plugins, if_neg hd]
      exact ih _

/-- C9 amended-claim witness: with `plugins/first` scanned before
`plugins/second`, the id `"dup"` maps to the plugin from
`plugins/second`. -/
theorem scan_duplicate_id_last_wins_witness :
    lookupAssoc
        ((emptyLoader.scan_plugins ([dupEntryA] ++ dupEntryB :: [])).1.plugins)
        "dup" = some (LoadedPlugin.new dupManifest "plugins/second") :=
  scan_duplicate_id_last_wins emptyLoader [dupEntryA] dupEntryB [] dupManifest
    rfl rfl rfl (by intro e2 h2; exact absurd h2 (List.not_mem_nil e2))

/-! ## Embedded view manager (C4) -/

/-- C4 counterexample: `set_bounds` on a not-yet-initialized
`ManagedWebView` performs no native call but returns `Ok(())`, not the
`NotInitialized` error the claim requires. -/
theorem set_bounds_uninitialized_counterexample :
    ((ManagedWebView.new demoCfg).set_bounds demoBounds true).1 = .ok () ∧
    ((ManagedWebView.new demoCfg).set_bounds demoBounds true).1
      ≠ .error .notInitialized ∧
    ((ManagedWebView.new demoCfg).set_bounds demoBounds true).2.2 = [] := by
  refine ⟨rfl, ?_, rfl⟩
  simp [ManagedWebView.new, ManagedWebView.set_bounds]

/-- C4 (amended): `set_bounds` on an uninitialized view performs no
native call and silently returns `Ok(())` — the caller is *not*
informed via an error; on an initialized view (with the native call
succeeding) it repositions the view, records the new bounds, and
returns `Ok(())`. -/
theorem set_bounds_spec :
    (∀ (m : ManagedWebView) (b : WebViewBounds) (ok : Bool),
        m.webview = none → m.set_bounds b ok = (.ok (), m, []))
  ∧ (∀ (m : ManagedWebView) (b : WebViewBounds),
        m.webview = some () →
        (m.set_bounds b true).1 = .ok () ∧
        (m.set_bounds b true).2.1.config.bounds = b ∧
        (m.set_bounds b true).2.2 = [.setBounds b]) := by
  constructor
  · intro m b ok h
    simp [ManagedWebView.set_bounds, h]
  · intro m b h
    simp [ManagedWebView.set_bounds, h]

/-- C4 amended-claim witness: repositioning an initialized view. -/
theorem set_bounds_spec_witness :
    (demoWebView.set_bounds demoBounds true).1 = .ok () ∧
    (demoWebView.set_bounds demoBounds true).2.1.config.bounds = demoBounds ∧
    (demoWebView.set_bounds demoBounds true).2.2
      = [.setBounds demoBounds] :=
  set_bounds_spec.2 demoWebView demoBounds rfl

/-! ## Surface lifecycle controller (C1, C5) -/

/-- `initialize_webview` keeps the attempt counter at or below the
maximum. -/
theorem initialize_webview_attempts_le (s : WebViewContainer) (ok : Bool)
    (h : s.init_attempts ≤ MAX_INIT_ATTEMPTS) :
    (s.initialize_webview ok).1.init_attempts ≤ MAX_INIT_ATTEMPTS := by
  unfold WebViewContainer.initialize_webview
  split
  · exact h
  next hg =>
    have hlt : s.init_attempts < MAX_INIT_ATTEMPTS := by
      rcases Nat.lt_or_ge s.init_attempts MAX_INIT_ATTEMPTS with h1 | h1
      · exact h1
      · exact absurd (Or.inr h1) hg
    cases ok with
    | true =>
      show s.init_attempts + 1 ≤ MAX_INIT_ATTEMPTS
      omega
    | false =>
      show s.init_attempts + 1 ≤ MAX_INIT_ATTEMPTS
      omega

/-- An exhausted, webview-less surface is left untouched by
`initialize_webview`. -/
theorem initialize_webview_exhausted (s : WebViewContainer) (ok : Bool)
    (h : MAX_INIT_ATTEMPTS ≤ s.init_attempts) :
    s.initialize_webview ok = (s, []) := by
  unfold WebViewContainer.initialize_webview
  rw [if_pos (Or.inr h)]

/-- `initialize_webview` emits at most the native view construction. -/
theorem initialize_webview_trace (s : WebViewContainer) (ok : Bool) :
    (s.initialize_webview ok).2 = [] ∨
    (s.initialize_webview ok).2 = [.buildWebView] := by
  unfold WebViewContainer.initialize_webview
  split
  · exact Or.inl rfl
  · right
    cases ok <;> rfl

/-- The visibility call never emits a bounds sync. -/
theorem set_visible_trace (m : ManagedWebView) (v ok : Bool) :
    (m.set_visible v ok).2.2 = [] ∨
    (m.set_visible v ok).2.2 = [.setVisible v] := by
  unfold ManagedWebView.set_visible
  split
  · split
    · exact Or.inr rfl
    · exact Or.inr rfl
  · exact Or.inl rfl

/-- A bounds call reaches the native layer only from an initialized
inner view. -/
theorem set_bounds_trace_initialized (m : ManagedWebView)
    (b : WebViewBounds) (ok : Bool) (c : NativeCall)
    (h : c ∈ (m.set_bounds b ok).2.2) : m.is_initialized = true := by
  unfold ManagedWebView.set_bounds at h
  unfold ManagedWebView.is_initialized
  cases hw : m.webview with
  | some u => simp
  | none =>
    simp only [hw] at h
    exact absurd h (List.not_mem_nil c)

/-- `initialize_webview` never emits a bounds call. -/
theorem initialize_webview_no_setBounds (t : WebViewContainer) (ok : Bool)
    (b : WebViewBounds) :
    NativeCall.setBounds b ∉ (t.initialize_webview ok).2 := by
  intro hmem
  rcases initialize_webview_trace t ok with htr | htr <;>
    rw [htr] at hmem <;> simp at hmem

/-- `set_visible` never emits a bounds call. -/
theorem set_visible_no_setBounds (m : ManagedWebView) (v ok : Bool)
    (b : WebViewBounds) :
    NativeCall.setBounds b ∉ (m.set_visible v ok).2.2 := by
  intro hmem
  rcases set_visible_trace m v ok with htr | htr <;>
    rw [htr] at hmem <;> simp at hmem

/-- A bounds call emitted by `sync_bounds` proves the container held an
initialized webview. -/
theorem sync_bounds_setBounds_mem (s : WebViewContainer) (r : MRect)
    (ok : Bool) (b : WebViewBounds)
    (h : NativeCall.setBounds b ∈ (s.sync_bounds r ok).2) :
    ∃ wv, s.webview = some wv ∧ wv.is_initialized = true := by
  unfold WebViewContainer.sync_bounds at h
  cases hw : s.webview with
  | none =>
    simp only [hw] at h
    exact absurd h (List.not_mem_nil _)
  | some wv =>
    simp only [hw] at h
    exact ⟨wv, rfl, set_bounds_trace_initialized wv _ ok _ h⟩

/-- The frame tick never emits a bounds call (it only constructs the
view or re-asserts visibility). -/
theorem next_frame_no_setBounds (s : WebViewContainer) (io vo : Bool)
    (b : WebViewBounds) :
    NativeCall.setBounds b ∉ (s.next_frame io vo).2 := by
  intro hmem
  simp only [WebViewContainer.next_frame] at hmem
  repeat' split at hmem
  all_goals
    first
    | exact List.not_mem_nil _ hmem
    | exact initialize_webview_no_setBounds _ _ _ hmem
    | exact set_visible_no_setBounds _ _ _ _ hmem

/-- `set_active` never emits a bounds call (it only hides the view). -/
theorem set_active_no_setBounds (s : WebViewContainer) (a ok : Bool)
    (b : WebViewBounds) :
    NativeCall.setBounds b ∉ (s.set_active a ok).2 := by
  intro hmem
  simp only [WebViewContainer.set_active] at hmem
  repeat' split at hmem
  all_goals
    first
    | exact List.not_mem_nil _ hmem
    | exact set_visible_no_setBounds _ _ _ _ hmem

/-- One lifecycle step never pushes the attempt counter past the
maximum. -/
theorem wvStep_attempts_le (s : WebViewContainer) (e : WvEvent)
    (h : s.init_attempts ≤ MAX_INIT_ATTEMPTS) :
    (wvStep s e).1.init_attempts ≤ MAX_INIT_ATTEMPTS := by
  cases e <;>
    simp only [wvStep, WebViewContainer.next_frame,
      WebViewContainer.window_geom_change, WebViewContainer.draw_walk,
      WebViewContainer.set_active, WebViewContainer.sync_bounds]
  all_goals repeat' split
  all_goals
    first
    | exact initialize_webview_attempts_le _ _ h
    | exact h

/-- `set_active` never touches the attempt counter. -/
theorem set_active_attempts (s : WebViewContainer) (a ok : Bool) :
    (s.set_active a ok).1.init_attempts = s.init_attempts := by
  simp only [WebViewContainer.set_active]
  repeat' split
  all_goals rfl

/-- One step out of an exhausted, webview-less state stays exhausted and
webview-less and performs no native call at all. -/
theorem wvStep_exhausted (s : WebViewContainer) (e : WvEvent)
    (h1 : s.init_attempts = MAX_INIT_ATTEMPTS) (h2 : s.webview = none) :
    (wvStep s e).1.init_attempts = MAX_INIT_ATTEMPTS ∧
    (wvStep s e).1.webview = none ∧ (wvStep s e).2 = [] := by
  have hub : MAX_INIT_ATTEMPTS ≤ s.init_attempts := le_of_eq h1.symm
  cases e <;>
    simp only [wvStep, WebViewContainer.next_frame,
      WebViewContainer.window_geom_change, WebViewContainer.draw_walk,
      WebViewContainer.set_active, WebViewContainer.sync_bounds]
  all_goals repeat' split
  all_goals
    first
    | exact ⟨h1, h2, rfl⟩
    | (rw [initialize_webview_exhausted _ _ hub]
       exact ⟨h1, h2, rfl⟩)
    | simp_all
    | omega

/-- Running any event sequence from an exhausted, webview-less state
keeps it exhausted, keeps the webview absent, and performs no native
call. -/
theorem wvRun_exhausted (evs : List WvEvent) :
    ∀ s : WebViewContainer,
      s.init_attempts = MAX_INIT_ATTEMPTS → s.webview = none →
      (wvRun s evs).1.init_attempts = MAX_INIT_ATTEMPTS ∧
      (wvRun s evs).1.webview = none ∧ (wvRun s evs).2 = [] := by
  induction evs with
  | nil => exact fun s h1 h2 => ⟨h1, h2, rfl⟩
  | cons e rest ih =>
    intro s h1 h2
    obtain ⟨g1, g2, g3⟩ := wvStep_exhausted s e h1 h2
    obtain ⟨r1, r2, r3⟩ := ih (wvStep s e).1 g1 g2
    simp only [wvRun]
    exact ⟨r1, r2, by simp [g3, r3]⟩

/-- Running any event sequence preserves the attempt bound. -/
theorem wvRun_attempts_le (evs : List WvEvent) :
    ∀ s : WebViewContainer,
      s.init_attempts ≤ MAX_INIT_ATTEMPTS →
      (wvRun s evs).1.init_attempts ≤ MAX_INIT_ATTEMPTS := by
  induction evs with
  | nil => exact fun s h => h
  | cons e rest ih =>
    intro s h
    exact ih (wvStep s e).1 (wvStep_attempts_le s e h)

/-- C1: `init_attempts` never exceeds `MAX_INIT_ATTEMPTS` in any
execution from a fresh surface; once the counter reaches the maximum
with no webview constructed, no further native call of any kind (in
particular no initialization attempt) occurs for the rest of the
surface's lifetime; and toggling `active` never resets the counter, so
an exhausted surface stays exhausted. -/
theorem surface_attempts_bounded_and_exhaustion_permanent :
    (∀ (url : String) (dt tr : Bool) (evs : List WvEvent),
        (wvRun (WebViewContainer.new url dt tr) evs).1.init_attempts
          ≤ MAX_INIT_ATTEMPTS)
  ∧ (∀ (s : WebViewContainer) (evs : List WvEvent),
        s.init_attempts = MAX_INIT_ATTEMPTS → s.webview = none →
        (wvRun s evs).2 = [] ∧
        (wvRun s evs).1.init_attempts = MAX_INIT_ATTEMPTS ∧
        (wvRun s evs).1.webview = none)
  ∧ (∀ (s : WebViewContainer) (a ok : Bool),
        (s.set_active a ok).1.init_attempts = s.init_attempts) := by
  refine ⟨?_, ?_, set_active_attempts⟩
  · intro url dt tr evs
    exact wvRun_attempts_le evs _ (by simp [WebViewContainer.new])
  · intro s evs h1 h2
    obtain ⟨g1, g2, g3⟩ := wvRun_exhausted evs s h1 h2
    exact ⟨g3, g1, g2⟩

/-- C1 witness: an exhausted surface driven through a deactivation, a
reactivation, and further frame ticks performs no native call and keeps
its counter at the maximum. -/
theorem surface_exhaustion_witness :
    (wvRun exhaustedContainer
        [WvEvent.setActive false true, WvEvent.setActive true true,
         WvEvent.nextFrame true true, WvEvent.nextFrame true true]).2 = [] ∧
    (wvRun exhaustedContainer
        [WvEvent.setActive false true, WvEvent.setActive true true,
         WvEvent.nextFrame true true, WvEvent.nextFrame true true]).1.init_attempts
      = MAX_INIT_ATTEMPTS ∧
    (wvRun exhaustedContainer
        [WvEvent.setActive false true, WvEvent.setActive true true,
         WvEvent.nextFrame true true, WvEvent.nextFrame true true]).1.webview
      = none :=
  surface_attempts_bounded_and_exhaustion_permanent.2.1 exhaustedContainer
    [WvEvent.setActive false true, WvEvent.setActive true true,
     WvEvent.nextFrame true true, WvEvent.nextFrame true true] rfl rfl

/-- C5 counterexample: a real execution — activate, tick until
initialization succeeds, lay out once, then two window-geometry events
with the cached rect unchanged — emits three *identical* platform
`set_bounds` calls: the geometry-change path re-syncs unconditionally,
so repeated identical bounds do cause additional platform calls. -/
theorem bounds_sync_repeated_counterexample :
    (wvRun (WebViewContainer.new "http://localhost:5173" true false)
        c5Events).2 =
      [.buildWebView, .setBounds ⟨0, 0, 640, 480⟩,
       .setBounds ⟨0, 0, 640, 480⟩, .setBounds ⟨0, 0, 640, 480⟩] := by
  rfl

/-- C5 (amended): a platform `set_bounds` call is emitted only in steps
where the surface is active and holds an initialized webview, and the
draw path never re-syncs an unchanged rect; the window-geometry path,
however, re-syncs the cached rect unconditionally (see the
counterexample), so identical bounds are re-sent on repeated geometry
events. -/
theorem bounds_sync_only_active_initialized :
    (∀ (s : WebViewContainer) (e : WvEvent) (b : WebViewBounds),
        NativeCall.setBounds b ∈ (wvStep s e).2 →
        s.active = true ∧
        ∃ wv, s.webview = some wv ∧ wv.is_initialized = true)
  ∧ (∀ (s : WebViewContainer) (r : MRect) (ok : Bool),
        s.cached_rect = some r → s.draw_walk r ok = (s, [])) := by
  constructor
  · intro s e b hmem
    cases e with
    | nextFrame io vo =>
      exact absurd hmem (next_frame_no_setBounds s io vo b)
    | setActive a ok =>
      exact absurd hmem (set_active_no_setBounds s a ok b)
    | windowGeomChange ok =>
      simp only [wvStep, WebViewContainer.window_geom_change] at hmem
      split at hmem
      next ha =>
        split at hmem
        next r hr =>
          exact ⟨ha, sync_bounds_setBounds_mem s r ok b hmem⟩
        · exact absurd hmem (List.not_mem_nil _)
      · exact absurd hmem (List.not_mem_nil _)
    | drawWalk r ok =>
      simp only [wvStep, WebViewContainer.draw_walk] at hmem
      split at hmem
      · split at hmem
        next hc =>
          exact ⟨hc.1,
            sync_bounds_setBounds_mem { s with cached_rect := some r } r ok b
              hmem⟩
        · exact absurd hmem (List.not_mem_nil _)
      · exact absurd hmem (List.not_mem_nil _)
  · intro s r ok h
    simp [WebViewContainer.draw_walk, h]

/-- C5 amended-claim witness: a geometry event on an inactive surface
emits no bounds call (vacuously satisfying the only-when-active
property), and a repeated draw with the cached rect is a no-op. -/
theorem bounds_sync_only_active_initialized_witness :
    ({ exhaustedContainer with cached_rect := some demoRect } :
        WebViewContainer).draw_walk demoRect true
      = ({ exhaustedContainer with cached_rect := some demoRect }, []) :=
  bounds_sync_only_active_initialized.2
    { exhaustedContainer with cached_rect := some demoRect } demoRect true rfl

/-! ## Character-class facts -/

/-- A digit character's codepoint bounds. -/
theorem isDigit_toNat {c : Char} (h : c.isDigit = true) :
    48 ≤ c.toNat ∧ c.toNat ≤ 57 := by
  simp only [Char.isDigit, Bool.and_eq_true, decide_eq_true_eq] at h
  exact h

/-- Digits are not whitespace. -/
theorem digit_not_ws {c : Char} (h : c.isDigit = true) :
    isRustWhitespace c = false := by
  obtain ⟨h1, h2⟩ := isDigit_toNat h
  simp [isRustWhitespace]
  omega

/-- Number-class characters are not whitespace. -/
theorem numChar_not_ws {c : Char} (h : isNumChar c = true) :
    isRustWhitespace c = false := by
  simp only [isNumChar, Bool.or_eq_true, decide_eq_true_eq] at h
  rcases h with ((((h | h) | h) | h) | h) | h
  · exact digit_not_ws h
  all_goals subst h; decide

/-- A digit is none of the parser's dispatch or delimiter characters. -/
theorem digit_ne_special {c : Char} (h : c.isDigit = true) :
    c ≠ '"' ∧ c ≠ lbrace ∧ c ≠ '[' ∧ c ≠ 't' ∧ c ≠ 'f' ∧ c ≠ 'n' ∧
    c ≠ ']' ∧ c ≠ rbrace ∧ c ≠ ',' ∧ c ≠ ':' := by
  obtain ⟨h1, h2⟩ := isDigit_toNat h
  refine ⟨?_, ?_, ?_, ?_, ?_, ?_, ?_, ?_, ?_, ?_⟩ <;>
    (intro hc; subst hc; revert h1 h2; decide)

/-- Serialization head characters are not whitespace. -/
theorem serHeadOk_not_ws {c : Char} (h : serHeadOk c = true) :
    isRustWhitespace c = false := by
  simp only [serHeadOk, Bool.or_eq_true, decide_eq_true_eq] at h
  rcases h with ((((((h | h) | h) | h) | h) | h) | h) | h
  · subst h; decide
  · subst h; decide
  · subst h; decide
  · subst h; decide
  · subst h; decide
  · subst h; decide
  · exact digit_not_ws h
  · subst h; decide

/-- Serialization head characters are neither closing brackets nor
braces. -/
theorem serHeadOk_ne_close {c : Char} (h : serHeadOk c = true) :
    c ≠ ']' ∧ c ≠ rbrace := by
  simp only [serHeadOk, Bool.or_eq_true, decide_eq_true_eq] at h
  rcases h with ((((((h | h) | h) | h) | h) | h) | h) | h
  · subst h; exact ⟨by decide, by decide⟩
  · subst h; exact ⟨by decide, by decide⟩
  · subst h; exact ⟨by decide, by decide⟩
  · subst h; exact ⟨by decide, by decide⟩
  · subst h; exact ⟨by decide, by decide⟩
  · subst h; exact ⟨by decide, by decide⟩
  · exact ⟨(digit_ne_special h).2.2.2.2.2.2.1, (digit_ne_special h).2.2.2.2.2.2.2.1⟩
  · subst h; exact ⟨by decide, by decide⟩

/-! ## Whitespace-skipping, trimming, and splitting lemmas -/

/-- `skip_whitespace` stops at a non-whitespace head. -/
theorem skip_whitespace_cons_not_ws {c : Char} (h : isRustWhitespace c = false)
    (cs : List Char) : skip_whitespace (c :: cs) = c :: cs := by
  simp [skip_whitespace, h]

/-- `dropWhile` is the identity when the head already fails the
predicate. -/
theorem dropWhile_eq_self {p : Char → Bool} {cs : List Char}
    (h : ∀ c, cs.head? = some c → p c = false) : cs.dropWhile p = cs := by
  cases cs with
  | nil => rfl
  | cons a l => simp [List.dropWhile_cons, h a rfl]

/-- `string::trim` is the identity on a string whose first and last
characters are not whitespace. -/
theorem trimChars_eq_self {cs : List Char}
    (h1 : ∀ c, cs.head? = some c → isRustWhitespace c = false)
    (h2 : ∀ c, cs.reverse.head? = some c → isRustWhitespace c = false) :
    trimChars cs = cs := by
  unfold trimChars
  rw [dropWhile_eq_self h1, dropWhile_eq_self h2, List.reverse_reverse]

/-- `takeWhile`/`dropWhile` split an append at the boundary where the
predicate flips. -/
theorem takeWhile_dropWhile_append {p : Char → Bool} :
    ∀ (xs ys : List Char), (∀ c ∈ xs, p c = true) →
      (∀ c, ys.head? = some c → p c = false) →
      (xs ++ ys).takeWhile p = xs ∧ (xs ++ ys).dropWhile p = ys := by
  intro xs
  induction xs with
  | nil =>
    intro ys h1 h2
    constructor
    · cases ys with
      | nil => rfl
      | cons a l => simp [List.takeWhile_cons, h2 a rfl]
    · exact dropWhile_eq_self h2
  | cons x t ih =>
    intro ys h1 h2
    have hx : p x = true := h1 x (List.mem_cons_self _ _)
    have ht := ih ys (fun c hc => h1 c (List.mem_cons_of_mem _ hc)) h2
    constructor
    · simp [List.takeWhile_cons, hx, ht.1]
    · simp [List.dropWhile_cons, hx, ht.2]

/-! ## String-literal parsing lemmas -/

/-- The string loop terminates at an (unescaped) closing quote. -/
theorem parse_string_loop_closing (acc rest : List Char) :
    parse_string_loop acc ('"' :: rest) = .ok (String.mk acc, rest) := by
  unfold parse_string_loop
  simp

/-- The string loop consumes an escape pair. -/
theorem parse_string_loop_escaped (acc : List Char) (e : Char)
    (rest : List Char) :
    parse_string_loop acc ('\\' :: e :: rest)
      = parse_string_loop (acc ++ [escDecode e]) rest := by
  conv =>
    lhs
    unfold parse_string_loop
  simp

/-- The string loop pushes a plain character. -/
theorem parse_string_loop_plain {c : Char} (hq : c ≠ '"') (hb : c ≠ '\\')
    (acc rest : List Char) :
    parse_string_loop acc (c :: rest) = parse_string_loop (acc ++ [c]) rest := by
  conv =>
    lhs
    unfold parse_string_loop
  simp [hq, hb]

/-- The string loop reads raw (escape-free) characters up to the closing
quote — this is how serialized object keys are re-read. -/
theorem parse_string_loop_raw :
    ∀ (cs acc rest : List Char), (∀ c ∈ cs, c ≠ '"' ∧ c ≠ '\\') →
      parse_string_loop acc (cs ++ '"' :: rest)
        = .ok (String.mk (acc ++ cs), rest) := by
  intro cs
  induction cs with
  | nil =>
    intro acc rest h
    rw [List.nil_append, parse_string_loop_closing]
    simp
  | cons c t ih =>
    intro acc rest h
    obtain ⟨hq, hb⟩ := h c (List.mem_cons_self _ _)
    rw [List.cons_append, parse_string_loop_plain hq hb,
      ih (acc ++ [c]) rest (fun x hx => h x (List.mem_cons_of_mem _ hx))]
    simp

/-- The string loop undoes the serializer's escaping of quotes and
backslashes — this is how serialized string values are re-read. -/
theorem parse_string_loop_esc :
    ∀ (s acc rest : List Char),
      parse_string_loop acc (escList s ++ '"' :: rest)
        = .ok (String.mk (acc ++ s), rest) := by
  intro s
  induction s with
  | nil =>
    intro acc rest
    rw [show escList [] = [] from rfl, List.nil_append,
      parse_string_loop_closing]
    simp
  | cons c t ih =>
    intro acc rest
    by_cases hb : c = '\\'
    · subst hb
      rw [show escList ('\\' :: t) = '\\' :: '\\' :: escList t from by
          simp [escList, escChar],
        List.cons_append, List.cons_append, parse_string_loop_escaped,
        show escDecode '\\' = '\\' from by decide, ih (acc ++ ['\\']) rest]
      simp
    · by_cases hq : c = '"'
      · subst hq
        rw [show escList ('"' :: t) = '\\' :: '"' :: escList t from by
            simp [escList, escChar],
          List.cons_append, List.cons_append, parse_string_loop_escaped,
          show escDecode '"' = '"' from by decide, ih (acc ++ ['"']) rest]
        simp
      · rw [show escList (c :: t) = c :: escList t from by
            simp [escList, escChar, hb, hq],
          List.cons_append, parse_string_loop_plain hq hb, ih (acc ++ [c]) rest]
        simp

/-! ## Serialization shape facts -/

/-- Every serialization is nonempty and starts with a dispatchable
character. -/
theorem serialize_head {N : Type} [NumRepr N] (v : JsonValue N) :
    ∃ c t, serialize v = c :: t ∧ serHeadOk c = true := by
  cases v with
  | null => exact ⟨'n', ['u', 'l', 'l'], rfl, by decide⟩
  | bool b =>
    cases b with
    | false => exact ⟨'f', ['a', 'l', 's', 'e'], rfl, by decide⟩
    | true => exact ⟨'t', ['r', 'u', 'e'], rfl, by decide⟩
  | number n =>
    have hh := NumRepr.toStr_head (N := N) n
    cases hd : (NumRepr.toStr (N := N) n).data with
    | nil => exact absurd hd (NumRepr.toStr_ne_nil n)
    | cons c t =>
      rw [hd] at hh
      simp only [goodNumHead, Bool.or_eq_true, decide_eq_true_eq] at hh
      refine ⟨c, t, by simp [serialize, hd], ?_⟩
      rcases hh with h | h
      · simp [serHeadOk, h]
      · subst h
        decide
  | string s =>
    refine ⟨'"', escList s.data ++ ['"'], ?_, by decide⟩
    simp [serialize]
  | array l =>
    refine ⟨'[', serialize_items l ++ [']'], ?_, by decide⟩
    simp [serialize]
  | object m =>
    refine ⟨lbrace, serialize_entries m ++ [rbrace], ?_, by decide⟩
    simp [serialize]

/-- Serializations are nonempty. -/
theorem serialize_length_pos {N : Type} [NumRepr N] (v : JsonValue N) :
    1 ≤ (serialize v).length := by
  obtain ⟨c, t, h, -⟩ := serialize_head v
  simp [h]

/-- `skip_whitespace` does not eat into a serialization. -/
theorem skip_whitespace_serialize_append {N : Type} [NumRepr N]
    (v : JsonValue N) (rest : List Char) :
    skip_whitespace (serialize v ++ rest) = serialize v ++ rest := by
  obtain ⟨c, t, h, hok⟩ := serialize_head v
  rw [h, List.cons_append, skip_whitespace_cons_not_ws (serHeadOk_not_ws hok)]

/-- The last character of a serialization is not whitespace. -/
theorem serialize_rev_head_not_ws {N : Type} [NumRepr N]
    (v : JsonValue N) :
    ∀ c, (serialize v).reverse.head? = some c → isRustWhitespace c = false := by
  cases v with
  | null =>
    intro c hc
    rw [show serialize (.null : JsonValue N) = ['n', 'u', 'l', 'l']
      from rfl] at hc
    simp at hc
    subst hc
    decide
  | bool b =>
    intro c hc
    cases b with
    | false =>
      rw [show serialize (.bool false : JsonValue N)
          = ['f', 'a', 'l', 's', 'e'] from rfl] at hc
      simp at hc
      subst hc
      decide
    | true =>
      rw [show serialize (.bool true : JsonValue N)
          = ['t', 'r', 'u', 'e'] from rfl] at hc
      simp at hc
      subst hc
      decide
  | number n =>
    intro c hc
    rw [show serialize (.number n : JsonValue N) = (NumRepr.toStr n).data
      from by simp [serialize]] at hc
    cases hrev : (NumRepr.toStr (N := N) n).data.reverse with
    | nil =>
      rw [hrev] at hc
      exact Option.noConfusion hc
    | cons x xs =>
      rw [hrev] at hc
      injection hc with h1
      have hmem : c ∈ (NumRepr.toStr (N := N) n).data.reverse := by
        rw [hrev, ← h1]
        exact List.mem_cons_self _ _
      exact numChar_not_ws
        (NumRepr.toStr_chars n c (List.mem_reverse.mp hmem))
  | string s =>
    intro c hc
    rw [show serialize (.string s : JsonValue N)
        = '"' :: (escList s.data ++ ['"']) from by simp [serialize]] at hc
    simp at hc
    subst hc
    decide
  | array l =>
    intro c hc
    rw [show serialize (.array l : JsonValue N)
        = '[' :: (serialize_items l ++ [']']) from by simp [serialize]] at hc
    simp at hc
    subst hc
    decide
  | object m =>
    intro c hc
    rw [show serialize (.object m : JsonValue N)
        = lbrace :: (serialize_entries m ++ [rbrace]) from by
      simp [serialize]] at hc
    simp at hc
    subst hc
    decide

/-- `string::trim` leaves a serialization unchanged. -/
theorem trim_serialize {N : Type} [NumRepr N] (v : JsonValue N) :
    trimChars (serialize v) = serialize v := by
  apply trimChars_eq_self
  · intro c hc
    obtain ⟨c0, t, h, hok⟩ := serialize_head v
    rw [h] at hc
    injection hc with h1
    rw [← h1]
    exact serHeadOk_not_ws hok
  · exact serialize_rev_head_not_ws v

/-- Every value needs at least one unit of fuel. -/
theorem needFuel_pos {N : Type} (v : JsonValue N) : 1 ≤ needFuel v := by
  cases v <;> simp [needFuel]

mutual
/-- The fuel a value needs is bounded by the length of its
serialization. -/
theorem needFuel_le_length {N : Type} [NumRepr N] (v : JsonValue N) :
    needFuel v ≤ (serialize v).length := by
  cases v with
  | null => simp [needFuel, serialize]
  | bool b => cases b <;> simp [needFuel, serialize]
  | number n =>
    have h := NumRepr.toStr_ne_nil (N := N) n
    have h2 : 1 ≤ (NumRepr.toStr (N := N) n).data.length := by
      cases hd : (NumRepr.toStr (N := N) n).data with
      | nil => exact absurd hd h
      | cons c t => simp
    simp only [needFuel, serialize]
    exact h2
  | string s => simp [needFuel, serialize]
  | array l =>
    have h := needFuelElems_le_length l
    simp only [needFuel, serialize]
    simp
    omega
  | object m =>
    have h := needFuelMembers_le_length m
    simp only [needFuel, serialize]
    simp
    omega

/-- Fuel bound for serialized array elements. -/
theorem needFuelElems_le_length {N : Type} [NumRepr N]
    (l : List (JsonValue N)) :
    needFuelElems l ≤ (serialize_items l).length + 1 := by
  cases l with
  | nil => simp [needFuelElems]
  | cons v rest =>
    cases rest with
    | nil =>
      have h1 := needFuel_le_length v
      simp only [needFuelElems, serialize_items]
      simp [needFuelElems]
      omega
    | cons v2 rest2 =>
      have h1 := needFuel_le_length v
      have h2 := needFuelElems_le_length (v2 :: rest2)
      have h3 := serialize_length_pos v
      rw [show serialize_items (v :: v2 :: rest2)
            = serialize v ++ ',' :: serialize_items (v2 :: rest2) from by
          simp [serialize_items],
        show needFuelElems (v :: v2 :: rest2)
            = max (needFuel v) (needFuelElems (v2 :: rest2)) + 1 from by
          simp [needFuelElems]]
      simp only [List.length_append, List.length_cons]
      omega

/-- Fuel bound for serialized object members. -/
theorem needFuelMembers_le_length {N : Type} [NumRepr N]
    (m : List (String × JsonValue N)) :
    needFuelMembers m ≤ (serialize_entries m).length + 1 := by
  cases m with
  | nil => simp [needFuelMembers]
  | cons kv rest =>
    obtain ⟨k, v⟩ := kv
    cases rest with
    | nil =>
      have h1 := needFuel_le_length v
      simp only [needFuelMembers, serialize_entries]
      simp [needFuelMembers]
      omega
    | cons kv2 rest2 =>
      have h1 := needFuel_le_length v
      have h2 := needFuelMembers_le_length (kv2 :: rest2)
      have h3 := serialize_length_pos v
      rw [show serialize_entries ((k, v) :: kv2 :: rest2)
            = ('"' :: (k.data ++ '"' :: ':' :: serialize v))
              ++ ',' :: serialize_entries (kv2 :: rest2) from by
          simp [serialize_entries],
        show needFuelMembers ((k, v) :: kv2 :: rest2)
            = max (needFuel v) (needFuelMembers (kv2 :: rest2)) + 1 from by
          simp [needFuelMembers]]
      simp only [List.length_append, List.length_cons]
      omega
end

/-! ## `parse_value` dispatch evaluation lemmas -/

/-- Structure eta for strings. -/
theorem string_mk_data (s : String) : String.mk s.data = s := rfl

/-- `restOkB` unpacked. -/
theorem restOkB_head {rest : List Char} (h : restOkB rest = true) :
    ∀ c, rest.head? = some c → isNumChar c = false := by
  cases rest with
  | nil => exact fun c hc => Option.noConfusion hc
  | cons a l =>
    intro c hc
    injection hc with h1
    subst h1
    simpa [restOkB] using h

/-- `parse_value` on a quote dispatches to the string parser. -/
theorem parse_value_quote_eval {N : Type} [NumRepr N] (f : Nat)
    (r : List Char) :
    parse_value (N := N) (f + 1) ('"' :: r)
      = match parse_string_loop [] r with
        | .ok (s, rr) => .ok (.string s, rr)
        | .error e => .error e := by
  conv =>
    lhs
    unfold parse_value
  rw [skip_whitespace_cons_not_ws (by decide)]
  simp [parse_string]

/-- `parse_value` on `null`. -/
theorem parse_value_null_eval {N : Type} [NumRepr N] (f : Nat)
    (rest : List Char) :
    parse_value (N := N) (f + 1) ('n' :: 'u' :: 'l' :: 'l' :: rest)
      = .ok (.null, rest) := by
  conv =>
    lhs
    unfold parse_value
  rw [skip_whitespace_cons_not_ws (by decide)]
  simp [parse_null, show ¬(('n' : Char) = lbrace) from by decide]

/-- `parse_value` on `true`. -/
theorem parse_value_true_eval {N : Type} [NumRepr N] (f : Nat)
    (rest : List Char) :
    parse_value (N := N) (f + 1) ('t' :: 'r' :: 'u' :: 'e' :: rest)
      = .ok (.bool true, rest) := by
  conv =>
    lhs
    unfold parse_value
  rw [skip_whitespace_cons_not_ws (by decide)]
  simp [parse_bool, show ¬(('t' : Char) = lbrace) from by decide]

/-- `parse_value` on `false` (the parser takes `fals` and then consumes
one more character). -/
theorem parse_value_false_eval {N : Type} [NumRepr N] (f : Nat)
    (rest : List Char) :
    parse_value (N := N) (f + 1)
        ('f' :: 'a' :: 'l' :: 's' :: 'e' :: rest)
      = .ok (.bool false, rest) := by
  conv =>
    lhs
    unfold parse_value
  rw [skip_whitespace_cons_not_ws (by decide)]
  simp [parse_bool, show ¬(('f' : Char) = lbrace) from by decide]

/-- `parse_value` on an opening brace exposes the object branch. -/
theorem parse_value_lbrace_eval {N : Type} [NumRepr N] (f : Nat)
    (r : List Char) :
    parse_value (N := N) (f + 1) (lbrace :: r)
      = match skip_whitespace r with
        | [] => .error ()
        | c1 :: rest1 =>
          if c1 = rbrace then .ok (.object [], rest1)
          else parse_object_loop f [] (c1 :: rest1) := by
  conv =>
    lhs
    unfold parse_value
  rw [skip_whitespace_cons_not_ws (by decide)]
  simp [show ¬(lbrace = '"') from by decide]

/-- `parse_value` on an opening bracket exposes the array branch. -/
theorem parse_value_lbracket_eval {N : Type} [NumRepr N] (f : Nat)
    (r : List Char) :
    parse_value (N := N) (f + 1) ('[' :: r)
      = match skip_whitespace r with
        | [] => .error ()
        | c1 :: rest1 =>
          if c1 = ']' then .ok (.array [], rest1)
          else parse_array_loop f [] (c1 :: rest1) := by
  conv =>
    lhs
    unfold parse_value
  rw [skip_whitespace_cons_not_ws (by decide)]
  simp [show ¬(('[' : Char) = lbrace) from by decide]

/-- `parse_value` on a printed number re-reads exactly that number. -/
theorem parse_value_num_eval {N : Type} [NumRepr N] (f : Nat) (n : N)
    (rest : List Char) (hrest : restOkB rest = true) :
    parse_value (N := N) (f + 1) ((NumRepr.toStr n).data ++ rest)
      = .ok (.number n, rest) := by
  have hh := NumRepr.toStr_head (N := N) n
  have hchars := NumRepr.toStr_chars (N := N) n
  have hsplit := takeWhile_dropWhile_append (p := isNumChar)
    ((NumRepr.toStr (N := N) n).data) rest
    (fun x hx => hchars x hx) (restOkB_head hrest)
  cases hd : (NumRepr.toStr (N := N) n).data with
  | nil => exact absurd hd (NumRepr.toStr_ne_nil n)
  | cons c t =>
    rw [hd] at hh hsplit
    rw [List.cons_append] at hsplit
    simp only [goodNumHead, Bool.or_eq_true, decide_eq_true_eq] at hh
    have hct : isNumChar c = true := by
      apply hchars
      rw [hd]
      exact List.mem_cons_self _ _
    have hdisp : c ≠ '"' ∧ c ≠ lbrace ∧ c ≠ '[' ∧ c ≠ 't' ∧ c ≠ 'f' ∧
        c ≠ 'n' := by
      rcases hh with h | h
      · obtain ⟨a1, a2, a3, a4, a5, a6, -⟩ := digit_ne_special h
        exact ⟨a1, a2, a3, a4, a5, a6⟩
      · subst h
        exact ⟨by decide, by decide, by decide, by decide, by decide,
          by decide⟩
    have hnotws : isRustWhitespace c = false := by
      rcases hh with h | h
      · exact digit_not_ws h
      · subst h
        decide
    have htake : List.takeWhile isNumChar (t ++ rest) = t := by
      have h0 := hsplit.1
      rw [List.takeWhile_cons, if_pos hct] at h0
      injection h0
    have hdrop : List.dropWhile isNumChar (t ++ rest) = rest := by
      have h0 := hsplit.2
      rw [List.dropWhile_cons, if_pos hct] at h0
      exact h0
    have hmk : String.mk (c :: t) = NumRepr.toStr (N := N) n := by
      rw [← hd]
    rw [List.cons_append]
    conv =>
      lhs
      unfold parse_value
    rw [skip_whitespace_cons_not_ws hnotws]
    simp [hdisp.1, hdisp.2.1, hdisp.2.2.1, hdisp.2.2.2.1,
      hdisp.2.2.2.2.1, hdisp.2.2.2.2.2, hh, parse_number, hct, htake,
      hdrop, hmk, NumRepr.ofStr_toStr]

/-! ## Well-formedness unpacking -/

/-- A non-number character keeps the following input safe for the
greedy number parser. -/
theorem restOkB_cons {c : Char} (h : isNumChar c = false) (X : List Char) :
    restOkB (c :: X) = true := by
  simp [restOkB, h]

/-- `wfBElems` unfolds on cons. -/
theorem wfBElems_cons {N : Type} {v : JsonValue N}
    {rest : List (JsonValue N)} (h : wfBElems (v :: rest) = true) :
    wfB v = true ∧ wfBElems rest = true := by
  simpa [wfBElems, Bool.and_eq_true] using h

/-- `wfBMembers` unfolds on cons. -/
theorem wfBMembers_cons {N : Type} {k : String} {v : JsonValue N}
    {rest : List (String × JsonValue N)}
    (h : wfBMembers ((k, v) :: rest) = true) :
    goodKeyB k = true ∧ wfB v = true ∧ wfBMembers rest = true := by
  simpa [wfBMembers, Bool.and_eq_true, and_assoc] using h

/-- `distinctKeysB` unfolds on cons. -/
theorem distinctKeysB_cons {α : Type} {k : String} {v : α}
    {rest : List (String × α)} (h : distinctKeysB ((k, v) :: rest) = true) :
    (∀ kv ∈ rest, kv.1 ≠ k) ∧ distinctKeysB rest = true := by
  simpa [distinctKeysB, List.all_eq_true, Bool.and_eq_true,
    decide_eq_true_eq] using h

/-- `goodKeyB` unpacked. -/
theorem goodKeyB_spec {k : String} (h : goodKeyB k = true) :
    ∀ c ∈ k.data, c ≠ '"' ∧ c ≠ '\\' := by
  simpa [goodKeyB, List.all_eq_true, Bool.and_eq_true,
    decide_eq_true_eq] using h

/-- One member of a serialized object is consumed by the object loop:
the raw key is re-read, the colon is consumed, and control passes to
`parse_value` on the member's value followed by the object's
continuation. -/
theorem parse_object_loop_member_step {N : Type} [NumRepr N] (f : Nat)
    (acc : List (String × JsonValue N)) (k : String) (v : JsonValue N)
    (tail : List Char) (hgk : goodKeyB k = true) :
    parse_object_loop (f + 1) acc
        (('"' :: (k.data ++ '"' :: ':' :: serialize v)) ++ tail)
      = (match parse_value f (serialize v ++ tail) with
         | .error e => .error e
         | .ok (w, cs3) =>
           match skip_whitespace cs3 with
           | [] => .error ()
           | c :: cs4 =>
             if c = ',' then parse_object_loop f (insertAssoc acc k w) cs4
             else if c = rbrace then .ok (.object (insertAssoc acc k w), cs4)
             else .error ()) := by
  conv =>
    lhs
    unfold parse_object_loop
  rw [List.cons_append, skip_whitespace_cons_not_ws (by decide)]
  simp only [parse_string, List.tail_cons]
  rw [show (k.data ++ '"' :: ':' :: serialize v) ++ tail
      = k.data ++ '"' :: (':' :: (serialize v ++ tail)) from by simp]
  rw [parse_string_loop_raw k.data [] _ (goodKeyB_spec hgk)]
  simp [string_mk_data,
    show skip_whitespace (':' :: (serialize v ++ tail))
        = ':' :: (serialize v ++ tail) from skip_whitespace_cons_not_ws (by decide) _]

/-! ## The parser/serializer round trip -/

mutual
/-- Parsing the serialization of a well-formed value, followed by any
non-number-leading continuation, returns exactly that value with the
continuation untouched, for any sufficient fuel. -/
theorem parse_value_serialize {N : Type} [NumRepr N] (v : JsonValue N)
    (hwf : wfB v = true) (rest : List Char) (hrest : restOkB rest = true)
    (fuel : Nat) (hfuel : needFuel v ≤ fuel) :
    parse_value fuel (serialize v ++ rest) = .ok (v, rest) := by
  obtain ⟨f, rfl⟩ : ∃ f, fuel = f + 1 := by
    have := needFuel_pos v
    cases fuel with
    | zero => exact absurd hfuel (by omega)
    | succ f => exact ⟨f, rfl⟩
  cases v with
  | null =>
    rw [show serialize (.null : JsonValue N) ++ rest
          = 'n' :: 'u' :: 'l' :: 'l' :: rest from rfl]
    exact parse_value_null_eval f rest
  | bool b =>
    cases b with
    | true =>
      rw [show serialize (.bool true : JsonValue N) ++ rest
            = 't' :: 'r' :: 'u' :: 'e' :: rest from rfl]
      exact parse_value_true_eval f rest
    | false =>
      rw [show serialize (.bool false : JsonValue N) ++ rest
            = 'f' :: 'a' :: 'l' :: 's' :: 'e' :: rest from rfl]
      exact parse_value_false_eval f rest
  | number n =>
    rw [show serialize (.number n : JsonValue N) = (NumRepr.toStr n).data
          from by simp [serialize]]
    exact parse_value_num_eval f n rest hrest
  | string s =>
    rw [show serialize (.string s : JsonValue N) ++ rest
          = '"' :: (escList s.data ++ '"' :: rest) from by simp [serialize]]
    rw [parse_value_quote_eval, parse_string_loop_esc s.data [] rest]
    simp [string_mk_data]
  | array l =>
    rw [show serialize (.array l : JsonValue N) ++ rest
          = '[' :: (serialize_items l ++ ']' :: rest) from by simp [serialize],
      parse_value_lbracket_eval]
    cases l with
    | nil =>
      rw [show serialize_items ([] : List (JsonValue N)) ++ ']' :: rest
            = ']' :: rest from by simp [serialize_items],
        skip_whitespace_cons_not_ws (by decide)]
      simp
    | cons v0 l2 =>
      rw [show needFuel (.array (v0 :: l2) : JsonValue N)
            = needFuelElems (v0 :: l2) + 1 from by simp [needFuel]] at hfuel
      rw [show wfB (.array (v0 :: l2) : JsonValue N)
            = wfBElems (v0 :: l2) from by simp [wfB]] at hwf
      obtain ⟨Y, hY⟩ : ∃ Y, serialize_items (v0 :: l2) = serialize v0 ++ Y := by
        cases l2 with
        | nil => exact ⟨[], by simp [serialize_items]⟩
        | cons v1 l3 =>
          exact ⟨',' :: serialize_items (v1 :: l3), by simp [serialize_items]⟩
      have hsw : skip_whitespace (serialize_items (v0 :: l2) ++ ']' :: rest)
          = serialize_items (v0 :: l2) ++ ']' :: rest := by
        rw [hY, List.append_assoc, skip_whitespace_serialize_append,
          ← List.append_assoc, ← hY]
      rw [hsw]
      obtain ⟨c, t, hser, hok⟩ := serialize_head v0
      have hcons : serialize_items (v0 :: l2) ++ ']' :: rest
          = c :: (t ++ Y ++ ']' :: rest) := by
        rw [hY, hser]
        simp
      rw [hcons]
      simp only [(serHeadOk_ne_close hok).1, ite_false, if_neg,
        reduceIte]
      rw [← hcons]
      rw [parse_array_loop_serialize (v0 :: l2) (by simp) hwf [] rest f
        (by omega)]
      simp
  | object m =>
    rw [show serialize (.object m : JsonValue N) ++ rest
          = lbrace :: (serialize_entries m ++ rbrace :: rest) from by
        simp [serialize],
      parse_value_lbrace_eval]
    cases m with
    | nil =>
      rw [show serialize_entries ([] : List (String × JsonValue N))
            ++ rbrace :: rest = rbrace :: rest from by simp [serialize_entries],
        skip_whitespace_cons_not_ws (by decide)]
      simp
    | cons kv m2 =>
      obtain ⟨k, v⟩ := kv
      rw [show needFuel (.object ((k, v) :: m2) : JsonValue N)
            = needFuelMembers ((k, v) :: m2) + 1 from by
          simp [needFuel]] at hfuel
      rw [show wfB (.object ((k, v) :: m2) : JsonValue N)
            = (distinctKeysB ((k, v) :: m2) && wfBMembers ((k, v) :: m2))
          from by simp [wfB]] at hwf
      rw [Bool.and_eq_true] at hwf
      obtain ⟨Y, hY⟩ : ∃ Y, serialize_entries ((k, v) :: m2)
          = ('"' :: (k.data ++ '"' :: ':' :: serialize v)) ++ Y := by
        cases m2 with
        | nil => exact ⟨[], by simp [serialize_entries]⟩
        | cons kv2 m3 =>
          exact ⟨',' :: serialize_entries (kv2 :: m3), by
            simp [serialize_entries]⟩
      have hsw : skip_whitespace (serialize_entries ((k, v) :: m2) ++ rbrace :: rest)
          = serialize_entries ((k, v) :: m2) ++ rbrace :: rest := by
        rw [hY, List.cons_append, List.cons_append,
          skip_whitespace_cons_not_ws (by decide)]
      rw [hsw, hY, List.cons_append, List.cons_append]
      simp only [show ¬(('"' : Char) = rbrace) from by decide, ite_false,
        if_neg, reduceIte]
      rw [← List.cons_append, ← List.cons_append, ← hY]
      rw [parse_object_loop_serialize ((k, v) :: m2) (by simp) hwf.2 hwf.1 []
        (by intro kv hm; exact absurd hm (List.not_mem_nil kv)) rest f
        (by omega)]
      simp

/-- The array-element loop re-reads serialized elements into the
accumulator. -/
theorem parse_array_loop_serialize {N : Type} [NumRepr N]
    (l : List (JsonValue N)) (hne : l ≠ []) (hwf : wfBElems l = true)
    (acc : List (JsonValue N)) (rest : List Char) (fuel : Nat)
    (hfuel : needFuelElems l ≤ fuel) :
    parse_array_loop fuel acc (serialize_items l ++ ']' :: rest)
      = .ok (.array (acc ++ l), rest) := by
  cases l with
  | nil => exact absurd rfl hne
  | cons v0 l2 =>
    rw [show needFuelElems (v0 :: l2)
          = max (needFuel v0) (needFuelElems l2) + 1 from by
        simp [needFuelElems]] at hfuel
    obtain ⟨f, rfl⟩ : ∃ f, fuel = f + 1 := by
      cases fuel with
      | zero => exact absurd hfuel (by omega)
      | succ f => exact ⟨f, rfl⟩
    obtain ⟨hwf0, hwf2⟩ := wfBElems_cons hwf
    conv =>
      lhs
      unfold parse_array_loop
    cases l2 with
    | nil =>
      rw [show serialize_items [v0] = serialize v0 from by
          simp [serialize_items]]
      rw [parse_value_serialize v0 hwf0 (']' :: rest)
        (restOkB_cons (by decide) _) f (by omega)]
      simp [show skip_whitespace (']' :: rest) = ']' :: rest from
        skip_whitespace_cons_not_ws (by decide) _]
    | cons v1 l3 =>
      rw [show serialize_items (v0 :: v1 :: l3)
            = serialize v0 ++ ',' :: serialize_items (v1 :: l3) from by
          simp [serialize_items], List.append_assoc, List.cons_append]
      rw [parse_value_serialize v0 hwf0
        (',' :: (serialize_items (v1 :: l3) ++ ']' :: rest))
        (restOkB_cons (by decide) _) f (by omega)]
      simp only [show skip_whitespace (',' :: (serialize_items (v1 :: l3)
            ++ ']' :: rest))
          = ',' :: (serialize_items (v1 :: l3) ++ ']' :: rest) from
        skip_whitespace_cons_not_ws (by decide) _]
      simp only [reduceIte]
      rw [parse_array_loop_serialize (v1 :: l3) (by simp) hwf2 (acc ++ [v0])
        rest f (by omega)]
      simp

/-- The object-member loop re-reads serialized members into the
accumulator map. -/
theorem parse_object_loop_serialize {N : Type} [NumRepr N]
    (m : List (String × JsonValue N)) (hne : m ≠ [])
    (hwf : wfBMembers m = true) (hdk : distinctKeysB m = true)
    (acc : List (String × JsonValue N))
    (hdisj : ∀ kv ∈ acc, ∀ kv2 ∈ m, kv.1 ≠ kv2.1)
    (rest : List Char) (fuel : Nat) (hfuel : needFuelMembers m ≤ fuel) :
    parse_object_loop fuel acc (serialize_entries m ++ rbrace :: rest)
      = .ok (.object (acc ++ m), rest) := by
  cases m with
  | nil => exact absurd rfl hne
  | cons kv m2 =>
    obtain ⟨k, v⟩ := kv
    rw [show needFuelMembers ((k, v) :: m2)
          = max (needFuel v) (needFuelMembers m2) + 1 from by
        simp [needFuelMembers]] at hfuel
    obtain ⟨f, rfl⟩ : ∃ f, fuel = f + 1 := by
      cases fuel with
      | zero => exact absurd hfuel (by omega)
      | succ f => exact ⟨f, rfl⟩
    obtain ⟨hgk, hwfv, hwfm2⟩ := wfBMembers_cons hwf
    obtain ⟨hk_m2, hdk2⟩ := distinctKeysB_cons hdk
    have hkacc : ∀ kv ∈ acc, kv.1 ≠ k :=
      fun kv hm => hdisj kv hm (k, v) (List.mem_cons_self _ _)
    cases m2 with
    | nil =>
      rw [show serialize_entries [(k, v)] ++ rbrace :: rest
            = ('"' :: (k.data ++ '"' :: ':' :: serialize v))
              ++ (rbrace :: rest) from by simp [serialize_entries]]
      rw [parse_object_loop_member_step f acc k v (rbrace :: rest) hgk]
      rw [parse_value_serialize v hwfv (rbrace :: rest)
        (restOkB_cons (by decide) _) f (by omega)]
      simp [show skip_whitespace (rbrace :: rest) = rbrace :: rest from
          skip_whitespace_cons_not_ws (by decide) _,
        show ¬(rbrace = ',') from by decide,
        insertAssoc_eq_append acc k v hkacc]
    | cons kv2 m3 =>
      rw [show serialize_entries ((k, v) :: kv2 :: m3) ++ rbrace :: rest
            = ('"' :: (k.data ++ '"' :: ':' :: serialize v))
              ++ (',' :: (serialize_entries (kv2 :: m3) ++ rbrace :: rest))
          from by simp [serialize_entries]]
      rw [parse_object_loop_member_step f acc k v _ hgk]
      rw [parse_value_serialize v hwfv
        (',' :: (serialize_entries (kv2 :: m3) ++ rbrace :: rest))
        (restOkB_cons (by decide) _) f (by omega)]
      simp only [show skip_whitespace (',' :: (serialize_entries (kv2 :: m3)
            ++ rbrace :: rest))
          = ',' :: (serialize_entries (kv2 :: m3) ++ rbrace :: rest) from
        skip_whitespace_cons_not_ws (by decide) _]
      simp only [reduceIte]
      rw [insertAssoc_eq_append acc k v hkacc]
      rw [parse_object_loop_serialize (kv2 :: m3) (by simp) hwfm2 hdk2
        (acc ++ [(k, v)])
        (by
          intro kv hm kv2' hm2
          rcases List.mem_append.mp hm with hm | hm
          · exact hdisj kv hm kv2' (List.mem_cons_of_mem _ hm2)
          · rw [List.mem_singleton] at hm
            subst hm
            exact fun hk => (hk_m2 kv2' hm2) hk.symm)
        rest f (by omega)]
      simp
end

/-- The round trip through the top-level entry point
`serde_json_minimal_parse` on a serialized well-formed value. -/
theorem serde_parse_round_trip {N : Type} [NumRepr N]
    (v : JsonValue N) (hwf : wfB v = true) :
    serde_json_minimal_parse (serializeStr v) = .ok v := by
  have h := parse_value_serialize v hwf [] rfl ((serialize v).length + 1)
    (by
      have := needFuel_le_length v
      omega)
  rw [List.append_nil] at h
  simp only [serde_json_minimal_parse, serializeStr]
  rw [trim_serialize, h]

/-- C3 counterexample: the `Display` impl writes object keys raw
(unescaped), so a key containing a quote produces text the parser
rejects — `parse(serialize(v)) = v` fails for
`v = \x7b"a\"b": null\x7d`. -/
theorem round_trip_key_quote_counterexample :
    serde_json_minimal_parse (N := Fin 10) (serializeStr keyQuoteValue)
      = .error () ∧
    serde_json_minimal_parse (N := Fin 10) (serializeStr keyQuoteValue)
      ≠ .ok keyQuoteValue := by
  constructor
  · rfl
  · intro h
    rw [show serde_json_minimal_parse (N := Fin 10)
        (serializeStr keyQuoteValue) = .error () from rfl] at h
    exact Except.noConfusion h

/-- C3 (amended): `parse(serialize(v)) = v` holds for every value built
from string/number/bool/null/array/object without NaN/Infinity (the
`NumRepr` laws are exactly Rust's finite-double `Display`/`parse`
guarantee) **provided every object key contains no quote or backslash
character** — keys are serialized unescaped, so such keys break the
round trip (see the counterexample); object key sets are distinct as
`HashMap` guarantees. -/
theorem parse_serialize_round_trip (N : Type) [NumRepr N] :
    ∀ v : JsonValue N, wfB v = true →
      serde_json_minimal_parse (serializeStr v) = .ok v :=
  fun v hwf => serde_parse_round_trip v hwf

/-- C3 amended-claim witness: a nested value exercising every
constructor (number, escaped string, empty string, bool, null, array,
multi-member object) round-trips. -/
theorem parse_serialize_round_trip_witness :
    serde_json_minimal_parse (N := Fin 10) (serializeStr roundTripDemo)
      = .ok roundTripDemo :=
  parse_serialize_round_trip (Fin 10) roundTripDemo (by rfl)

/-! ## Message bridge (C2, C8) -/

/-- C2: `IpcMessage::from_js` returns `{channel, payload =
re-serialization of the data value}` exactly when parsing succeeds and
yields an object whose `"channel"` field is a string and which has a
`"data"` field; on parse failure or shape mismatch it returns
`{channel: "default", payload: raw_text}` unchanged.  The last two
conjuncts evaluate the two concrete examples from the spec: string data
values are re-quoted, and `"not json"` falls back verbatim. -/
theorem from_js_spec (N : Type) [NumRepr N] :
    (∀ (raw : String) (v : JsonValue N) (ch : String) (d : JsonValue N),
        serde_json_minimal_parse (N := N) raw = .ok v →
        (v.get "channel").bind JsonValue.asStr = some ch →
        v.get "data" = some d →
        IpcMessage.from_js N raw = ⟨ch, String.mk (serialize d)⟩)
  ∧ (∀ raw : String,
        serde_json_minimal_parse (N := N) raw = .error () →
        IpcMessage.from_js N raw = ⟨"default", raw⟩)
  ∧ (∀ (raw : String) (v : JsonValue N),
        serde_json_minimal_parse (N := N) raw = .ok v →
        ((v.get "channel").bind JsonValue.asStr = none ∨
          v.get "data" = none) →
        IpcMessage.from_js N raw = ⟨"default", raw⟩)
  ∧ IpcMessage.from_js (Fin 10)
      "\x7b\"channel\":\"demo\",\"data\":\"hello\"\x7d"
      = ⟨"demo", "\"hello\""⟩
  ∧ IpcMessage.from_js (Fin 10) "not json" = ⟨"default", "not json"⟩ := by
  refine ⟨?_, ?_, ?_, rfl, rfl⟩
  · intro raw v ch d hparse hch hd
    unfold IpcMessage.from_js
    simp only [hparse, hch, hd]
  · intro raw hparse
    unfold IpcMessage.from_js
    simp only [hparse]
  · intro raw v hparse hshape
    unfold IpcMessage.from_js
    simp only [hparse]
    cases hch : (v.get "channel").bind JsonValue.asStr with
    | none => cases hd : v.get "data" <;> rfl
    | some c =>
      cases hd : v.get "data" with
      | none => rfl
      | some d =>
        exfalso
        rcases hshape with h | h
        · rw [hch] at h
          exact Option.noConfusion h
        · rw [hd] at h
          exact Option.noConfusion h

/-- C2 witness: the well-formed example applied through the
characterization, with the parsed object supplied explicitly. -/
theorem from_js_spec_witness :
    IpcMessage.from_js (Fin 10)
        "\x7b\"channel\":\"demo\",\"data\":\"hello\"\x7d"
      = ⟨"demo",
         String.mk (serialize (JsonValue.string (N := Fin 10) "hello"))⟩ :=
  (from_js_spec (Fin 10)).1
    "\x7b\"channel\":\"demo\",\"data\":\"hello\"\x7d"
    (JsonValue.object [("channel", JsonValue.string "demo"),
                    ("data", JsonValue.string "hello")])
    "demo" (JsonValue.string "hello") rfl rfl rfl

/-- C8 counterexample: the minimal parser does NOT reject duplicate
object keys — `\x7b"a":null,"a":true\x7d` parses successfully, the later
value silently overwriting the earlier one. -/
theorem duplicate_keys_accepted_counterexample :
    serde_json_minimal_parse (N := Fin 10) "\x7b\"a\":null,\"a\":true\x7d"
      = .ok (.object [("a", .bool true)]) := by
  rfl

/-- C8 (amended): the minimal parser rejects trailing commas in objects
and arrays, and on rejection the whole parse fails atomically with a
bare error (the result type carries no partial tree: every parse is
either one error or one complete value); duplicate object keys, however,
are NOT rejected — the member loop inserts into the map so the last
value for a key wins. -/
theorem parser_rejections_and_duplicates :
    serde_json_minimal_parse (N := Fin 10) "\x7b\"a\":null,\x7d" = .error ()
  ∧ serde_json_minimal_parse (N := Fin 10) "[null,]" = .error ()
  ∧ serde_json_minimal_parse (N := Fin 10) "\x7b\"a\":null,\"a\":true\x7d"
      = .ok (.object [("a", .bool true)])
  ∧ (∀ {α : Type} (m : List (String × α)) (k : String) (v1 v2 : α),
        lookupAssoc (insertAssoc (insertAssoc m k v1) k v2) k = some v2)
  ∧ (∀ s : String,
        serde_json_minimal_parse (N := Fin 10) s = .error () ∨
        ∃ v, serde_json_minimal_parse (N := Fin 10) s = .ok v) := by
  refine ⟨rfl, rfl, rfl, ?_, ?_⟩
  · intro α m k v1 v2
    exact lookupAssoc_insertAssoc_self _ _ _
  · intro s
    cases h : serde_json_minimal_parse (N := Fin 10) s with
    | ok v => exact Or.inr ⟨v, rfl⟩
    | error e =>
      cases e
      exact Or.inl rfl

end MofaStudio
